import Mathlib

/-!
Verification development for the BusyGraph tracker core
(internal/tracker: keystroke / mouse / video-call minute-bucket aggregation,
federation of peer databases, and the range-based stats query engine).

The SQLite relations are modelled as Lean lists of row structures; the three
`all_*` union views are passed to the query functions as the list of rows they
expose.  SQL upserts (`INSERT ... ON CONFLICT ... DO UPDATE`) become list
transformations that update the matching primary-key row when present and
append a fresh row otherwise.  Go `int64` arithmetic is modelled with `Int`
(Go and SQLite integer division truncate toward zero, i.e. `Int.tdiv`);
Go `float64` values (the `REAL` column `mouse_metrics.value`, the mouse
distance accumulator, heatmap values) are modelled with `ℝ`.
Wall-clock inputs (`time.Now().Unix()`, the calendar-dependent
`now.AddDate(-1,0,0).Unix()`, and the localtime day/hour/weekday of a unix
timestamp) are opaque environment parameters.
-/

namespace Busygraph

/-- One row of the `keystrokes` table: `(minute, key_char, count)` with
primary key `(minute, key_char)`. -/
structure KRow where
  minute : Int
  key_char : String
  count : Int
  deriving DecidableEq, Repr

/-- One row of the `mouse_metrics` table: `(minute, metric_name, value REAL)`
with primary key `(minute, metric_name)`. -/
structure MRow where
  minute : Int
  metric_name : String
  value : ℝ

/-- One row of the `video_calls` table:
`(minute PRIMARY KEY, in_call, camera_active, microphone_active, app)`. -/
structure VRow where
  minute : Int
  in_call : Int
  camera_active : Int
  microphone_active : Int
  app : String
  deriving DecidableEq, Repr

/-- A point of the history / calendar series (tracker.TimePoint). -/
structure TimePoint where
  time : Int
  count : Int
  deriving DecidableEq, Repr

/-- A key with its summed count (tracker.KeyCount). -/
structure KeyCount where
  key : String
  count : Int
  deriving DecidableEq, Repr

/-- A heatmap point (tracker.HeatmapPoint); `value` is a Go float64. -/
structure HeatmapPoint where
  timestamp : Int
  value : ℝ

/-! ## Keystroke increments (Tracker.Increment) -/

/-- Does the row match the keystrokes primary key `(b, k)`? -/
def kMatch (b : Int) (k : String) (r : KRow) : Bool :=
  decide (r.minute = b) && decide (r.key_char = k)

/-- Tracker.Increment, persistence part: the upsert
`INSERT INTO keystrokes (minute, key_char, count) VALUES (?, ?, 1)
 ON CONFLICT(minute, key_char) DO UPDATE SET count = count + 1`
executed at bucket `b` for key `k`.  (The Prometheus counter updated by the
same Go function is ephemeral in-memory state, never read back, and is not
modelled.) -/
def kIncrement (tbl : List KRow) (b : Int) (k : String) : List KRow :=
  if tbl.any (kMatch b k) then
    tbl.map (fun r => if kMatch b k r then { r with count := r.count + 1 } else r)
  else
    tbl ++ [{ minute := b, key_char := k, count := 1 }]

/-- The stored count for primary key `(b, k)`: the summed `count` of the
matching rows (a table respecting the primary key has at most one). -/
def kCountAt (tbl : List KRow) (b : Int) (k : String) : Int :=
  ((tbl.filter (kMatch b k)).map (fun r => r.count)).sum

lemma filter_map_of_pred_invariant {α : Type} (p : α → Bool) (f : α → α)
    (hf : ∀ x, p (f x) = p x) :
    ∀ l : List α, (l.map f).filter p = (l.filter p).map f := by
  intro l
  induction l with
  | nil => simp
  | cons a l ih =>
    by_cases h : p a = true
    · simp [List.filter_cons, h, hf, ih]
    · simp only [Bool.not_eq_true] at h
      simp [List.filter_cons, h, hf, ih]

lemma kIncrement_matches (tbl : List KRow) (b : Int) (k : String) (c : Int)
    (h : tbl.filter (kMatch b k) = [{ minute := b, key_char := k, count := c }]) :
    (kIncrement tbl b k).filter (kMatch b k)
      = [{ minute := b, key_char := k, count := c + 1 }] := by
  have hany : tbl.any (kMatch b k) = true := by
    rw [List.any_eq_true]
    have : ({ minute := b, key_char := k, count := c } : KRow) ∈ tbl.filter (kMatch b k) := by
      rw [h]; exact List.mem_singleton.mpr rfl
    exact ⟨_, List.mem_of_mem_filter this, (List.mem_filter.mp this).2⟩
  have hinv : ∀ r : KRow, kMatch b k (if kMatch b k r then { r with count := r.count + 1 } else r)
      = kMatch b k r := by
    intro r
    by_cases hr : kMatch b k r = true
    · rw [if_pos hr]
      rfl
    · rw [if_neg hr]
  rw [kIncrement, if_pos hany,
    filter_map_of_pred_invariant (kMatch b k) _ hinv, h]
  have : kMatch b k { minute := b, key_char := k, count := c } = true := by
    simp [kMatch]
  simp [this]

lemma kIncrement_matches_fresh (tbl : List KRow) (b : Int) (k : String)
    (h : tbl.filter (kMatch b k) = []) :
    (kIncrement tbl b k).filter (kMatch b k)
      = [{ minute := b, key_char := k, count := 1 }] := by
  have hany : tbl.any (kMatch b k) = false := by
    rw [Bool.eq_false_iff]
    intro hc
    rw [List.any_eq_true] at hc
    obtain ⟨x, hx, hpx⟩ := hc
    have : x ∈ tbl.filter (kMatch b k) := List.mem_filter.mpr ⟨hx, hpx⟩
    rw [h] at this
    exact absurd this (List.not_mem_nil x)
  rw [kIncrement, hany]
  simp only [Bool.false_eq_true, if_false, List.filter_append, h]
  have : kMatch b k { minute := b, key_char := k, count := 1 } = true := by
    simp [kMatch]
  simp [this]

lemma kIncrement_iter_matches (b : Int) (k : String) :
    ∀ (n : Nat) (tbl : List KRow), tbl.filter (kMatch b k) = [] → 0 < n →
    ((fun t => kIncrement t b k)^[n] tbl).filter (kMatch b k)
      = [{ minute := b, key_char := k, count := (n : Int) }] := by
  intro n
  induction n with
  | zero => intro tbl _ h0; exact absurd h0 (by omega)
  | succ m ih =>
    intro tbl h _
    rw [Function.iterate_succ_apply]
    by_cases hm : 0 < m
    · have h1 := kIncrement_matches_fresh tbl b k h
      -- after the first insert the matching row is [⟨b,k,1⟩]; iterate bumps it m times
      have : ∀ (j : Nat) (t : List KRow) (c : Int),
          t.filter (kMatch b k) = [{ minute := b, key_char := k, count := c }] →
          ((fun t => kIncrement t b k)^[j] t).filter (kMatch b k)
            = [{ minute := b, key_char := k, count := c + (j : Int) }] := by
        intro j
        induction j with
        | zero => intro t c hc; simpa using hc
        | succ i ihj =>
          intro t c hc
          rw [Function.iterate_succ_apply]
          have := ihj _ _ (kIncrement_matches t b k c hc)
          rw [this]
          congr 1
          push_cast
          ring_nf
      have := this m (kIncrement tbl b k) 1 h1
      rw [this]
      congr 2
      push_cast
      ring
    · have hm0 : m = 0 := by omega
      subst hm0
      simpa using kIncrement_matches_fresh tbl b k h

/-- C3: for every sequence of `incrementKey(k)` calls whose current bucket is
the same minute `b`, the stored count for `(b, k)` equals the number of calls:
starting from a table with no row at `(b, k)`, after `n` increments the stored
count is `n`, and a single increment always adds `1` to the stored count
(inserting the row with count `1` when it is absent). -/
theorem spec_C3_increment (tbl : List KRow) (b : Int) (k : String)
    (habsent : tbl.filter (kMatch b k) = []) :
    (∀ n : Nat, kCountAt ((fun t => kIncrement t b k)^[n] tbl) b k = (n : Int))
    ∧ kCountAt (kIncrement tbl b k) b k = kCountAt tbl b k + 1 := by
  constructor
  · intro n
    by_cases hn : 0 < n
    · rw [kCountAt, kIncrement_iter_matches b k n tbl habsent hn]
      simp
    · have : n = 0 := by omega
      subst this
      simp [kCountAt, habsent]
  · rw [kCountAt, kCountAt, kIncrement_matches_fresh tbl b k habsent, habsent]
    simp

/-- Witness for C3 at a concrete input: three increments of key "a" at bucket
600 starting from the empty table store count 3. -/
theorem spec_C3_increment_witness :
    ([] : List KRow).filter (kMatch 600 ("a")) = []
    ∧ kCountAt ((fun t => kIncrement t 600 ("a"))^[3] []) 600 ("a") = 3 := by
  refine ⟨by decide, ?_⟩
  have h := (spec_C3_increment [] 600 ("a") (by decide)).1 3
  simpa using h

/-! ## Mouse activity buffer

The package-level accumulators `mouseDist`, `mouseClicksLeft`,
`mouseClicksRight`, `mouseScroll`, `lastMouseX`, `lastMouseY`.
The coordinates and the scroll amount are Go `int16` values, so their
arithmetic wraps modulo 2^16 (two's complement); `wrap16` reduces an
integer to the representative in `[-32768, 32767]`. -/

/-- Two's-complement reduction of an integer into the signed 16-bit range,
as performed by Go `int16` arithmetic. -/
def wrap16 (z : Int) : Int :=
  (z + 32768) % 65536 - 32768

/-- The in-memory mouse accumulators (package-level vars in the source).
`dist` is a Go float64 accumulator, modelled as a real number. -/
structure MouseState where
  clicksLeft : Int
  clicksRight : Int
  scroll : Int
  dist : ℝ
  lastX : Int
  lastY : Int

/-- The initial buffer state: all accumulators zero,
`lastMouseX = lastMouseY = -1` (the "no known position" sentinel). -/
def initMouseState : MouseState :=
  { clicksLeft := 0, clicksRight := 0, scroll := 0, dist := 0, lastX := -1, lastY := -1 }

/-- Tracker.TrackMouseClick. -/
def trackMouseClick (s : MouseState) (button : String) : MouseState :=
  if button = "left" then { s with clicksLeft := s.clicksLeft + 1 }
  else if button = "right" then { s with clicksRight := s.clicksRight + 1 }
  else s

/-- Tracker.TrackMouseScroll: `amount` is an `int16` (callers pass a value in
`[-32768, 32767]`).  The negation `-amount` in the source is itself `int16`
arithmetic, hence wraps. -/
def trackMouseScroll (s : MouseState) (amount : Int) : MouseState :=
  if amount < 0 then { s with scroll := s.scroll + wrap16 (-amount) }
  else { s with scroll := s.scroll + amount }

/-- Tracker.TrackMouseMove: `x`, `y` are `int16` coordinates; the deltas
`x - lastMouseX`, `y - lastMouseY` are computed in `int16` (wrapping)
before the conversion to float64. -/
noncomputable def trackMouseMove (s : MouseState) (x y : Int) : MouseState :=
  if s.lastX ≠ -1 then
    { s with
      dist := s.dist + Real.sqrt
        ((wrap16 (x - s.lastX) : ℝ) * (wrap16 (x - s.lastX) : ℝ)
          + (wrap16 (y - s.lastY) : ℝ) * (wrap16 (y - s.lastY) : ℝ)),
      lastX := x, lastY := y }
  else
    { s with lastX := x, lastY := y }

lemma wrap16_eq_self (z : Int) (h1 : -32768 ≤ z) (h2 : z ≤ 32767) : wrap16 z = z := by
  unfold wrap16
  omega

/-- A buffer state whose last known position is `(-20000, 0)`. -/
noncomputable def mouseCexState : MouseState :=
  { clicksLeft := 0, clicksRight := 0, scroll := 0, dist := 0, lastX := -20000, lastY := 0 }

lemma real_sqrt_mul_self_eval (a : ℝ) (h : 0 ≤ a) : Real.sqrt (a * a + 0 * 0) = a := by
  rw [mul_zero, add_zero]
  exact Real.sqrt_mul_self h

/-- Counterexample to C7 as stated: with previous position `(-20000, 0)`,
the call `recordMove(20000, 0)` does not add the Euclidean distance 40000
from the previous position; the int16 delta `20000 - (-20000) = 40000`
wraps to `-25536`, so only 25536 is added. -/
theorem spec_C7_counterexample :
    (trackMouseMove mouseCexState 20000 0).dist
      ≠ mouseCexState.dist
        + Real.sqrt ((((20000 : Int) - mouseCexState.lastX : Int) : ℝ)
            * (((20000 : Int) - mouseCexState.lastX : Int) : ℝ)
          + (((0 : Int) - mouseCexState.lastY : Int) : ℝ)
            * (((0 : Int) - mouseCexState.lastY : Int) : ℝ)) := by
  have hx : mouseCexState.lastX = -20000 := rfl
  have hy : mouseCexState.lastY = 0 := rfl
  have hd : mouseCexState.dist = 0 := rfl
  have hne : mouseCexState.lastX ≠ -1 := by rw [hx]; decide
  rw [trackMouseMove, if_pos hne, hx, hy, hd]
  have hw1 : wrap16 (20000 - -20000) = -25536 := by unfold wrap16; decide
  have hw2 : wrap16 (0 - 0) = 0 := by unfold wrap16; decide
  rw [hw1, hw2]
  have e1 : Real.sqrt (((-25536 : Int) : ℝ) * ((-25536 : Int) : ℝ)
      + ((0 : Int) : ℝ) * ((0 : Int) : ℝ)) = 25536 := by
    have : ((-25536 : Int) : ℝ) * ((-25536 : Int) : ℝ) = (25536 : ℝ) * 25536 := by
      norm_num
    rw [this, show (((0:Int)):ℝ) = (0:ℝ) by norm_num, mul_zero, add_zero]
    exact Real.sqrt_mul_self (by norm_num : (0:ℝ) ≤ 25536)
  have e2 : Real.sqrt ((((20000 : Int) - (-20000 : Int) : Int) : ℝ)
      * (((20000 : Int) - (-20000 : Int) : Int) : ℝ)
      + (((0 : Int) - (0:Int) : Int) : ℝ) * (((0 : Int) - (0:Int) : Int) : ℝ))
      = 40000 := by
    have h4 : (((20000 : Int) - (-20000 : Int) : Int) : ℝ) = (40000 : ℝ) := by norm_num
    have h0 : (((0 : Int) - (0:Int) : Int) : ℝ) = (0 : ℝ) := by norm_num
    rw [h4, h0, mul_zero, add_zero]
    exact Real.sqrt_mul_self (by norm_num : (0:ℝ) ≤ 40000)
  simp only [e1]
  rw [e2]
  norm_num

/-- C7 amended: `recordMove(x,y)` treats a previous position as known iff
`lastMouseX ≠ -1` (the sentinel).  When known, it adds the Euclidean length of
the 16-bit-wrapped coordinate deltas — which equals the true Euclidean
distance whenever both deltas fit in a signed 16-bit integer; otherwise it
records `(x, y)` without adding distance.  Three sequential calls at
(0,0), (3,4), (3,4) from the initial state accumulate distance 5.0, then
add 0.0. -/
theorem spec_C7_amended :
    (∀ (s : MouseState) (x y : Int), s.lastX ≠ -1 →
      (trackMouseMove s x y).dist
        = s.dist + Real.sqrt ((wrap16 (x - s.lastX) : ℝ) * (wrap16 (x - s.lastX) : ℝ)
            + (wrap16 (y - s.lastY) : ℝ) * (wrap16 (y - s.lastY) : ℝ))
      ∧ (trackMouseMove s x y).lastX = x ∧ (trackMouseMove s x y).lastY = y)
    ∧ (∀ (s : MouseState) (x y : Int), s.lastX = -1 →
      (trackMouseMove s x y).dist = s.dist
      ∧ (trackMouseMove s x y).lastX = x ∧ (trackMouseMove s x y).lastY = y)
    ∧ (∀ (s : MouseState) (x y : Int), s.lastX ≠ -1 →
      -32768 ≤ x - s.lastX → x - s.lastX ≤ 32767 →
      -32768 ≤ y - s.lastY → y - s.lastY ≤ 32767 →
      (trackMouseMove s x y).dist
        = s.dist + Real.sqrt (((x - s.lastX : Int) : ℝ) * ((x - s.lastX : Int) : ℝ)
            + ((y - s.lastY : Int) : ℝ) * ((y - s.lastY : Int) : ℝ)))
    ∧ ((trackMouseMove (trackMouseMove initMouseState 0 0) 3 4).dist = 5
      ∧ (trackMouseMove (trackMouseMove (trackMouseMove initMouseState 0 0) 3 4) 3 4).dist
          = 5) := by
  have hknown : ∀ (s : MouseState) (x y : Int), s.lastX ≠ -1 →
      (trackMouseMove s x y).dist
        = s.dist + Real.sqrt ((wrap16 (x - s.lastX) : ℝ) * (wrap16 (x - s.lastX) : ℝ)
            + (wrap16 (y - s.lastY) : ℝ) * (wrap16 (y - s.lastY) : ℝ))
      ∧ (trackMouseMove s x y).lastX = x ∧ (trackMouseMove s x y).lastY = y := by
    intro s x y h
    rw [trackMouseMove, if_pos h]
    exact ⟨rfl, rfl, rfl⟩
  have hfresh : ∀ (s : MouseState) (x y : Int), s.lastX = -1 →
      (trackMouseMove s x y).dist = s.dist
      ∧ (trackMouseMove s x y).lastX = x ∧ (trackMouseMove s x y).lastY = y := by
    intro s x y h
    rw [trackMouseMove, if_neg (by simp [h])]
    exact ⟨rfl, rfl, rfl⟩
  refine ⟨hknown, hfresh, ?_, ?_⟩
  · intro s x y h hx1 hx2 hy1 hy2
    rw [(hknown s x y h).1, wrap16_eq_self _ hx1 hx2, wrap16_eq_self _ hy1 hy2]
  · have h1 : initMouseState.lastX = -1 := rfl
    have s1 := hfresh initMouseState 0 0 h1
    have s1x : (trackMouseMove initMouseState 0 0).lastX = 0 := s1.2.1
    have s1y : (trackMouseMove initMouseState 0 0).lastY = 0 := s1.2.2
    have s1d : (trackMouseMove initMouseState 0 0).dist = 0 := by
      rw [s1.1]; rfl
    have s2 := hknown (trackMouseMove initMouseState 0 0) 3 4 (by rw [s1x]; decide)
    have hsq5 : Real.sqrt ((3 : ℝ) * 3 + 4 * 4) = 5 := by
      rw [show (3:ℝ)*3 + 4*4 = 5 * 5 by norm_num,
        Real.sqrt_mul_self (by norm_num : (0:ℝ) ≤ 5)]
    have s2d : (trackMouseMove (trackMouseMove initMouseState 0 0) 3 4).dist = 5 := by
      rw [s2.1, s1x, s1y, s1d]
      have w3 : wrap16 (3 - 0) = 3 := by unfold wrap16; decide
      have w4 : wrap16 (4 - 0) = 4 := by unfold wrap16; decide
      rw [w3, w4]
      push_cast
      rw [hsq5]
      norm_num
    refine ⟨s2d, ?_⟩
    have s3 := hknown (trackMouseMove (trackMouseMove initMouseState 0 0) 3 4) 3 4
      (by rw [s2.2.1]; decide)
    rw [s3.1, s2.2.1, s2.2.2, s2d]
    have w0 : wrap16 (3 - 3) = 0 := by unfold wrap16; decide
    have w0y : wrap16 (4 - 4) = 0 := by unfold wrap16; decide
    rw [w0, w0y]
    push_cast
    rw [mul_zero, add_zero, Real.sqrt_zero, add_zero]

/-- Witness for C7 amended, applying the in-range case at a concrete state:
from the known position `(0, 0)`, `recordMove(3, 4)` adds exactly the
Euclidean distance of the deltas. -/
noncomputable def mouseWState : MouseState :=
  { clicksLeft := 0, clicksRight := 0, scroll := 0, dist := 0, lastX := 0, lastY := 0 }

theorem spec_C7_amended_witness :
    mouseWState.lastX ≠ -1
    ∧ (trackMouseMove mouseWState 3 4).dist
        = mouseWState.dist
          + Real.sqrt ((((3:Int) - mouseWState.lastX : Int) : ℝ)
              * (((3:Int) - mouseWState.lastX : Int) : ℝ)
            + (((4:Int) - mouseWState.lastY : Int) : ℝ)
              * (((4:Int) - mouseWState.lastY : Int) : ℝ)) := by
  refine ⟨by decide, ?_⟩
  exact spec_C7_amended.2.2.1 mouseWState 3 4 (by decide) (by decide) (by decide)
    (by decide) (by decide)

/-- C8, evaluation at the failing input: `recordScroll(-32768)` (the minimum
`int16`) wraps `-(-32768)` back to `-32768` and so decreases the scroll
accumulator below zero instead of adding `abs(-32768) = 32768`. -/
theorem spec_C8_scroll_overflow :
    (trackMouseScroll initMouseState (-32768)).scroll = -32768
    ∧ ¬ 0 ≤ (trackMouseScroll initMouseState (-32768)).scroll
    ∧ (trackMouseScroll initMouseState (-32768)).scroll < initMouseState.scroll := by
  refine ⟨?_, ?_, ?_⟩ <;>
  · rw [trackMouseScroll, if_pos (by decide : (-32768 : Int) < 0)]
    unfold wrap16 initMouseState
    decide

/-! ## Mouse metric flush (Tracker.flushMouseMetrics) -/

/-- Does the row match the mouse_metrics primary key `(b, nm)`? -/
def mMatch (b : Int) (nm : String) (r : MRow) : Bool :=
  decide (r.minute = b) && decide (r.metric_name = nm)

/-- Does the row carry metric `nm` (at any minute)? -/
def mByName (nm : String) (r : MRow) : Bool :=
  decide (r.metric_name = nm)

/-- The upsert
`INSERT INTO mouse_metrics (minute, metric_name, value) VALUES (?, ?, ?)
 ON CONFLICT(minute, metric_name) DO UPDATE SET value = value + ?`. -/
def mUpsert (tbl : List MRow) (b : Int) (nm : String) (v : ℝ) : List MRow :=
  if tbl.any (mMatch b nm) then
    tbl.map (fun r => if mMatch b nm r then { r with value := r.value + v } else r)
  else
    tbl ++ [{ minute := b, metric_name := nm, value := v }]

/-- The stored value for primary key `(b, nm)`: the summed `value` of the
matching rows (at most one in a table respecting the primary key). -/
noncomputable def mValueAt (tbl : List MRow) (b : Int) (nm : String) : ℝ :=
  ((tbl.filter (mMatch b nm)).map (fun r => r.value)).sum

/-- The four metric/value pairs read out of the accumulators by the flush
(the Go `metrics` map; its iteration order is unspecified, and the four
upserts touch four distinct primary keys, so a fixed order is chosen). -/
def mouseFlushMetrics (s : MouseState) : List (String × ℝ) :=
  [("clicks_left", (s.clicksLeft : ℝ)), ("clicks_right", (s.clicksRight : ℝ)),
    ("scroll", (s.scroll : ℝ)), ("distance", s.dist)]

/-- One step of the flush loop: an upsert when the accumulated value is
positive, no write otherwise. -/
noncomputable def mFlushStep (b : Int) (tbl : List MRow) (p : String × ℝ) : List MRow :=
  if 0 < p.2 then mUpsert tbl b p.1 p.2 else tbl

/-- Tracker.flushMouseMetrics: read the four accumulators, reset them to
zero, and upsert each metric with a positive delta into `mouse_metrics` at
the current bucket `b`. -/
noncomputable def flushMouseMetrics (s : MouseState) (tbl : List MRow) (b : Int) :
    MouseState × List MRow :=
  ({ s with clicksLeft := 0, clicksRight := 0, scroll := 0, dist := 0 },
    (mouseFlushMetrics s).foldl (mFlushStep b) tbl)

lemma filter_map_eq_filter_of_fix {α : Type} (q : α → Bool) (f : α → α)
    (hq : ∀ x, q (f x) = q x) (hfix : ∀ x, q x = true → f x = x) :
    ∀ l : List α, (l.map f).filter q = l.filter q := by
  intro l
  induction l with
  | nil => simp
  | cons a l ih =>
    by_cases h : q a = true
    · simp only [List.map_cons, List.filter_cons, hq, h, if_true, hfix a h, ih]
    · simp only [Bool.not_eq_true] at h
      simp only [List.map_cons, List.filter_cons, hq, h, ih]
      simp

lemma mMatch_eq_and (b : Int) (nm : String) (r : MRow) :
    mMatch b nm r = (decide (r.minute = b) && mByName nm r) := rfl

lemma filter_match_of_filter_byName (b : Int) (nm : String) (l₁ l₂ : List MRow)
    (h : l₁.filter (mByName nm) = l₂.filter (mByName nm)) :
    l₁.filter (mMatch b nm) = l₂.filter (mMatch b nm) := by
  have e : ∀ l : List MRow, l.filter (mMatch b nm)
      = (l.filter (mByName nm)).filter (fun r => decide (r.minute = b)) := by
    intro l
    rw [List.filter_filter]
    apply List.filter_congr
    intro r _
    rw [mMatch_eq_and, Bool.and_comm]
  rw [e, e, h]

lemma mUpsert_value (tbl : List MRow) (b : Int) (nm : String) (v : ℝ)
    (h : (tbl.filter (mMatch b nm)).length ≤ 1) :
    mValueAt (mUpsert tbl b nm v) b nm = mValueAt tbl b nm + v := by
  by_cases hany : tbl.any (mMatch b nm) = true
  · rw [mUpsert, if_pos hany]
    have hinv : ∀ r : MRow,
        mMatch b nm (if mMatch b nm r then { r with value := r.value + v } else r)
          = mMatch b nm r := by
      intro r
      by_cases hr : mMatch b nm r = true
      · rw [if_pos hr]
        rfl
      · rw [if_neg hr]
    rw [mValueAt, filter_map_of_pred_invariant (mMatch b nm) _ hinv]
    obtain ⟨x, hx, hpx⟩ := List.any_eq_true.mp hany
    have hne : tbl.filter (mMatch b nm) ≠ [] := by
      intro hc
      have : x ∈ tbl.filter (mMatch b nm) := List.mem_filter.mpr ⟨hx, hpx⟩
      rw [hc] at this
      exact absurd this (List.not_mem_nil x)
    have hlen : (tbl.filter (mMatch b nm)).length = 1 := by
      have := List.length_pos.mpr hne
      omega
    obtain ⟨r, hr⟩ := List.length_eq_one.mp hlen
    have hrmem : r ∈ tbl.filter (mMatch b nm) := by
      rw [hr]; exact List.mem_singleton.mpr rfl
    have hrmatch : mMatch b nm r = true := (List.mem_filter.mp hrmem).2
    rw [hr, mValueAt, hr]
    simp [hrmatch]
  · rw [mUpsert, if_neg hany, mValueAt, mValueAt, List.filter_append]
    have hempty : tbl.filter (mMatch b nm) = [] := by
      rw [List.filter_eq_nil_iff]
      intro x hx
      intro hc
      exact hany (List.any_eq_true.mpr ⟨x, hx, hc⟩)
    have hnew : mMatch b nm { minute := b, metric_name := nm, value := v } = true := by
      simp [mMatch]
    rw [hempty]
    simp [hnew]

lemma mUpsert_byName_other (tbl : List MRow) (b : Int) (nm' : String) (v : ℝ)
    (nm : String) (hne : nm' ≠ nm) :
    (mUpsert tbl b nm' v).filter (mByName nm) = tbl.filter (mByName nm) := by
  by_cases hany : tbl.any (mMatch b nm') = true
  · rw [mUpsert, if_pos hany]
    apply filter_map_eq_filter_of_fix
    · intro r
      by_cases hr : mMatch b nm' r = true
      · rw [if_pos hr]
        rfl
      · rw [if_neg hr]
    · intro r hr
      have : mMatch b nm' r = false := by
        rw [mByName, decide_eq_true_iff] at hr
        rw [mMatch]
        simp [hr, hne.symm]
      rw [this]
      simp
  · rw [mUpsert, if_neg hany, List.filter_append]
    have : mByName nm { minute := b, metric_name := nm', value := v } = false := by
      simp [mByName, hne]
    simp [this]

lemma mFlushStep_byName_other (b : Int) (tbl : List MRow) (p : String × ℝ)
    (nm : String) (hne : p.1 ≠ nm) :
    (mFlushStep b tbl p).filter (mByName nm) = tbl.filter (mByName nm) := by
  rw [mFlushStep]
  by_cases hp : 0 < p.2
  · rw [if_pos hp]
    exact mUpsert_byName_other tbl b p.1 p.2 nm hne
  · rw [if_neg hp]

lemma mFold_byName_of_not_mem (b : Int) (nm : String) :
    ∀ (ms : List (String × ℝ)) (tbl : List MRow), (∀ p ∈ ms, p.1 ≠ nm) →
    (ms.foldl (mFlushStep b) tbl).filter (mByName nm) = tbl.filter (mByName nm) := by
  intro ms
  induction ms with
  | nil => intro tbl _; rfl
  | cons p rest ih =>
    intro tbl h
    rw [List.foldl_cons, ih _ (fun q hq => h q (List.mem_cons_of_mem p hq)),
      mFlushStep_byName_other b tbl p nm (h p (List.mem_cons_self p rest))]

lemma mFold_value (b : Int) (nm : String) (δ : ℝ) (hδ : 0 < δ) :
    ∀ (ms : List (String × ℝ)) (tbl : List MRow),
    (ms.map Prod.fst).Nodup → (nm, δ) ∈ ms →
    (tbl.filter (mMatch b nm)).length ≤ 1 →
    mValueAt (ms.foldl (mFlushStep b) tbl) b nm = mValueAt tbl b nm + δ := by
  intro ms
  induction ms with
  | nil => intro tbl _ hmem; exact absurd hmem (List.not_mem_nil _)
  | cons p rest ih =>
    intro tbl hnodup hmem hPK
    rw [List.map_cons, List.nodup_cons] at hnodup
    rcases List.mem_cons.mp hmem with heq | hrest
    · -- the head performs the upsert; the remaining names avoid nm
      subst heq
      rw [List.foldl_cons]
      have hrest_ne : ∀ q ∈ rest, q.1 ≠ nm := by
        intro q hq hc
        have hmm := List.mem_map_of_mem Prod.fst hq
        rw [hc] at hmm
        exact hnodup.1 hmm
      have hby := mFold_byName_of_not_mem b nm rest (mFlushStep b tbl (nm, δ)) hrest_ne
      have hfm := filter_match_of_filter_byName b nm _ _ hby
      rw [mValueAt, hfm, ← mValueAt]
      rw [mFlushStep, if_pos hδ]
      exact mUpsert_value tbl b nm δ hPK
    · -- the head touches a different metric and leaves nm's rows unchanged
      have hpne : p.1 ≠ nm := by
        intro hc
        have hmm := List.mem_map_of_mem Prod.fst hrest
        rw [← hc] at hmm
        exact hnodup.1 hmm
      rw [List.foldl_cons]
      have hby := mFlushStep_byName_other b tbl p nm hpne
      have hfm := filter_match_of_filter_byName b nm _ _ hby
      have hPK2 : ((mFlushStep b tbl p).filter (mMatch b nm)).length ≤ 1 := by
        rw [hfm]; exact hPK
      rw [ih _ hnodup.2 hrest hPK2, mValueAt, hfm, ← mValueAt]

lemma mFold_byName_zero (b : Int) (nm : String) (δ : ℝ) (hδ : ¬ 0 < δ) :
    ∀ (ms : List (String × ℝ)) (tbl : List MRow),
    (ms.map Prod.fst).Nodup → (nm, δ) ∈ ms →
    (ms.foldl (mFlushStep b) tbl).filter (mByName nm) = tbl.filter (mByName nm) := by
  intro ms
  induction ms with
  | nil => intro tbl _ hmem; exact absurd hmem (List.not_mem_nil _)
  | cons p rest ih =>
    intro tbl hnodup hmem
    rw [List.map_cons, List.nodup_cons] at hnodup
    rcases List.mem_cons.mp hmem with heq | hrest
    · subst heq
      rw [List.foldl_cons]
      have hrest_ne : ∀ q ∈ rest, q.1 ≠ nm := by
        intro q hq hc
        have hmm := List.mem_map_of_mem Prod.fst hq
        rw [hc] at hmm
        exact hnodup.1 hmm
      rw [mFold_byName_of_not_mem b nm rest _ hrest_ne, mFlushStep, if_neg hδ]
    · have hpne : p.1 ≠ nm := by
        intro hc
        exact hnodup.1 (hc ▸ List.mem_map_of_mem Prod.fst hrest)
      rw [List.foldl_cons, ih _ hnodup.2 hrest,
        mFlushStep_byName_other b tbl p nm hpne]

/-- C6: a flush atomically zeroes all four accumulators; each metric whose
accumulated delta is positive is written exactly once as an
upsert-accumulate (`value = value + delta`) at the current bucket, and a
metric with a non-positive delta produces no write at all (its rows in the
table are untouched).  The hypothesis says the table respects the
`(minute, metric_name)` primary key at bucket `b`. -/
theorem spec_C6_flush (s : MouseState) (tbl : List MRow) (b : Int)
    (hPK : ∀ nm, (tbl.filter (mMatch b nm)).length ≤ 1) :
    ((flushMouseMetrics s tbl b).1.clicksLeft = 0
      ∧ (flushMouseMetrics s tbl b).1.clicksRight = 0
      ∧ (flushMouseMetrics s tbl b).1.scroll = 0
      ∧ (flushMouseMetrics s tbl b).1.dist = 0)
    ∧ (∀ p ∈ mouseFlushMetrics s,
        (0 < p.2 → mValueAt (flushMouseMetrics s tbl b).2 b p.1
            = mValueAt tbl b p.1 + p.2)
        ∧ (¬ 0 < p.2 → (flushMouseMetrics s tbl b).2.filter (mByName p.1)
            = tbl.filter (mByName p.1))) := by
  have hnames : ((mouseFlushMetrics s).map Prod.fst).Nodup := by
    show (["clicks_left", "clicks_right", "scroll", "distance"] : List String).Nodup
    decide
  refine ⟨⟨rfl, rfl, rfl, rfl⟩, ?_⟩
  intro p hp
  constructor
  · intro hpos
    exact mFold_value b p.1 p.2 hpos (mouseFlushMetrics s) tbl hnames hp (hPK p.1)
  · intro hneg
    exact mFold_byName_zero b p.1 p.2 hneg (mouseFlushMetrics s) tbl hnames hp

/-- Witness for C6 at a concrete input: buffer `(2 left clicks, 0 right
clicks, 5 scroll, distance 0)` flushed into the empty table at bucket 60
adds 2 to `clicks_left` there. -/
noncomputable def mouseFlushWState : MouseState :=
  { clicksLeft := 2, clicksRight := 0, scroll := 5, dist := 0, lastX := -1, lastY := -1 }

theorem spec_C6_flush_witness :
    (∀ nm, (([] : List MRow).filter (mMatch 60 nm)).length ≤ 1)
    ∧ (0:ℝ) < ((2:Int):ℝ)
    ∧ mValueAt (flushMouseMetrics mouseFlushWState [] 60).2 60 ("clicks_left")
        = mValueAt [] 60 ("clicks_left") + ((2:Int):ℝ) := by
  have h1 : ∀ nm, (([] : List MRow).filter (mMatch 60 nm)).length ≤ 1 := by
    intro nm
    simp
  have h2 : (0:ℝ) < ((2:Int):ℝ) := by norm_num
  have hmem : (("clicks_left", ((2:Int):ℝ)) : String × ℝ)
      ∈ mouseFlushMetrics mouseFlushWState := by
    rw [mouseFlushMetrics]
    exact List.mem_cons_self _ _
  refine ⟨h1, h2, ?_⟩
  exact ((spec_C6_flush mouseFlushWState [] 60 h1).2 _ hmem).1 h2

/-! ## Video-call observations (Tracker.TrackVideoCall) -/

/-- The source helper boolToInt. -/
def boolToInt (b : Bool) : Int :=
  if b then 1 else 0

/-- Does the row match the video_calls primary key `b`? -/
def vMatch (b : Int) (r : VRow) : Bool :=
  decide (r.minute = b)

/-- One observation delivered by the video-call detector. -/
structure CallObs where
  inCall : Bool
  cameraActive : Bool
  micActive : Bool
  app : String
  deriving DecidableEq, Repr

/-- Tracker.TrackVideoCall: a no-op unless `inCall`; otherwise the upsert
`INSERT INTO video_calls ... ON CONFLICT(minute) DO UPDATE SET
 in_call = ?, camera_active = MAX(camera_active, ?),
 microphone_active = MAX(microphone_active, ?),
 app = COALESCE(NULLIF(?, ''), app)` at bucket `b`. -/
def trackVideoCall (tbl : List VRow) (b : Int) (inCall cameraActive micActive : Bool)
    (app : String) : List VRow :=
  if !inCall then tbl
  else if tbl.any (vMatch b) then
    tbl.map (fun r => if vMatch b r then
      { r with
        in_call := boolToInt inCall,
        camera_active := max r.camera_active (boolToInt cameraActive),
        microphone_active := max r.microphone_active (boolToInt micActive),
        app := if app = "" then r.app else app }
      else r)
  else
    tbl ++ [{ minute := b, in_call := boolToInt inCall,
                camera_active := boolToInt cameraActive,
                microphone_active := boolToInt micActive, app := app }]

/-- Folding a sequence of observations into the table at bucket `b`. -/
def callStep (b : Int) (tbl : List VRow) (o : CallObs) : List VRow :=
  trackVideoCall tbl b o.inCall o.cameraActive o.micActive o.app

/-- OR-accumulation (as `MAX` over 0/1 values) of a flag over the in-call
observations of a sequence, starting from `c`. -/
def orAcc (f : CallObs → Bool) (c : Int) (obs : List CallObs) : Int :=
  obs.foldl (fun acc o => if o.inCall then max acc (boolToInt (f o)) else acc) c

/-- Last-non-empty-wins accumulation of the app name over the in-call
observations of a sequence, starting from `a`. -/
def appAcc (a : String) (obs : List CallObs) : String :=
  obs.foldl (fun acc o => if o.inCall then (if o.app = "" then acc else o.app) else acc) a

lemma callStep_matches (b : Int) (tbl : List VRow) (o : CallObs) (r : VRow)
    (h : tbl.filter (vMatch b) = [r]) (ho : o.inCall = true) :
    (callStep b tbl o).filter (vMatch b)
      = [{ r with
             in_call := 1,
             camera_active := max r.camera_active (boolToInt o.cameraActive),
             microphone_active := max r.microphone_active (boolToInt o.micActive),
             app := if o.app = "" then r.app else o.app }] := by
  have hany : tbl.any (vMatch b) = true := by
    rw [List.any_eq_true]
    have : r ∈ tbl.filter (vMatch b) := by
      rw [h]; exact List.mem_singleton.mpr rfl
    exact ⟨_, List.mem_of_mem_filter this, (List.mem_filter.mp this).2⟩
  have hinv : ∀ x : VRow, vMatch b (if vMatch b x then
      { x with
          in_call := boolToInt o.inCall,
          camera_active := max x.camera_active (boolToInt o.cameraActive),
          microphone_active := max x.microphone_active (boolToInt o.micActive),
          app := if o.app = "" then x.app else o.app } else x) = vMatch b x := by
    intro x
    by_cases hx : vMatch b x = true
    · rw [if_pos hx]
      rfl
    · rw [if_neg hx]
  have hni : (!o.inCall) = false := by rw [ho]; rfl
  rw [callStep, trackVideoCall, hni]
  simp only [Bool.false_eq_true, if_false]
  rw [if_pos hany, filter_map_of_pred_invariant (vMatch b) _ hinv, h]
  have hrm : vMatch b r = true := by
    have : r ∈ tbl.filter (vMatch b) := by
      rw [h]; exact List.mem_singleton.mpr rfl
    exact (List.mem_filter.mp this).2
  simp only [List.map_cons, List.map_nil]
  rw [if_pos hrm, ho]
  rfl

lemma callStep_skip (b : Int) (tbl : List VRow) (o : CallObs) (ho : o.inCall = false) :
    callStep b tbl o = tbl := by
  rw [callStep, trackVideoCall, ho]
  rfl

lemma callStep_fresh (b : Int) (tbl : List VRow) (o : CallObs)
    (h : tbl.filter (vMatch b) = []) (ho : o.inCall = true) :
    (callStep b tbl o).filter (vMatch b)
      = [{ minute := b, in_call := 1,
              camera_active := boolToInt o.cameraActive,
              microphone_active := boolToInt o.micActive, app := o.app }] := by
  have hany : tbl.any (vMatch b) = false := by
    rw [Bool.eq_false_iff]
    intro hc
    obtain ⟨x, hx, hpx⟩ := List.any_eq_true.mp hc
    have : x ∈ tbl.filter (vMatch b) := List.mem_filter.mpr ⟨hx, hpx⟩
    rw [h] at this
    exact absurd this (List.not_mem_nil x)
  have hni : (!o.inCall) = false := by rw [ho]; rfl
  rw [callStep, trackVideoCall, hni]
  simp only [Bool.false_eq_true, if_false, hany, List.filter_append, h, ho]
  simp [vMatch, boolToInt]

lemma callFold_present (b : Int) :
    ∀ (obs : List CallObs) (tbl : List VRow) (c m : Int) (a : String),
    tbl.filter (vMatch b) = [{ minute := b, in_call := 1, camera_active := c,
                                 microphone_active := m, app := a }] →
    ((obs.foldl (callStep b) tbl).filter (vMatch b))
      = [{ minute := b, in_call := 1,
              camera_active := orAcc (fun o => o.cameraActive) c obs,
              microphone_active := orAcc (fun o => o.micActive) m obs,
              app := appAcc a obs }] := by
  intro obs
  induction obs with
  | nil => intro tbl c m a h; simpa [orAcc, appAcc] using h
  | cons o rest ih =>
    intro tbl c m a h
    rw [List.foldl_cons]
    by_cases ho : o.inCall = true
    · have hstep := callStep_matches b tbl o _ h ho
      have hrec := ih (callStep b tbl o) (max c (boolToInt o.cameraActive))
        (max m (boolToInt o.micActive)) (if o.app = "" then a else o.app) hstep
      rw [hrec]
      have e1 : orAcc (fun o => o.cameraActive) c (o :: rest)
          = orAcc (fun o => o.cameraActive) (max c (boolToInt o.cameraActive)) rest := by
        simp [orAcc, ho]
      have e2 : orAcc (fun o => o.micActive) m (o :: rest)
          = orAcc (fun o => o.micActive) (max m (boolToInt o.micActive)) rest := by
        simp [orAcc, ho]
      have e3 : appAcc a (o :: rest) = appAcc (if o.app = "" then a else o.app) rest := by
        simp [appAcc, ho]
      rw [e1, e2, e3]
    · have ho' : o.inCall = false := by
        rw [Bool.not_eq_true] at ho; exact ho
      rw [callStep_skip b tbl o ho', ih tbl c m a h]
      have e1 : orAcc (fun o => o.cameraActive) c (o :: rest)
          = orAcc (fun o => o.cameraActive) c rest := by
        simp [orAcc, ho']
      have e2 : orAcc (fun o => o.micActive) m (o :: rest)
          = orAcc (fun o => o.micActive) m rest := by
        simp [orAcc, ho']
      have e3 : appAcc a (o :: rest) = appAcc a rest := by
        simp [appAcc, ho']
      rw [e1, e2, e3]

lemma max_zero_boolToInt (z : Bool) : max 0 (boolToInt z) = boolToInt z := by
  cases z <;> simp [boolToInt]

lemma callFold_fresh (b : Int) :
    ∀ (obs : List CallObs) (tbl : List VRow),
    tbl.filter (vMatch b) = [] →
    ((obs.foldl (callStep b) tbl).filter (vMatch b))
      = (if obs.any (fun o => o.inCall) then
          [{ minute := b, in_call := 1,
               camera_active := orAcc (fun o => o.cameraActive) 0 obs,
               microphone_active := orAcc (fun o => o.micActive) 0 obs,
               app := appAcc ("") obs }]
        else []) := by
  intro obs
  induction obs with
  | nil => intro tbl h; simpa using h
  | cons o rest ih =>
    intro tbl h
    rw [List.foldl_cons]
    by_cases ho : o.inCall = true
    · have hstep := callStep_fresh b tbl o h ho
      have hrec := callFold_present b rest (callStep b tbl o) (boolToInt o.cameraActive)
        (boolToInt o.micActive) o.app hstep
      rw [hrec]
      have hanyc : (o :: rest).any (fun o => o.inCall) = true := by
        simp [List.any_cons, ho]
      rw [hanyc, if_pos rfl]
      have e1 : orAcc (fun o => o.cameraActive) 0 (o :: rest)
          = orAcc (fun o => o.cameraActive) (boolToInt o.cameraActive) rest := by
        simp [orAcc, ho, max_zero_boolToInt]
      have e2 : orAcc (fun o => o.micActive) 0 (o :: rest)
          = orAcc (fun o => o.micActive) (boolToInt o.micActive) rest := by
        simp [orAcc, ho, max_zero_boolToInt]
      have e3 : appAcc ("") (o :: rest) = appAcc o.app rest := by
        by_cases ha : o.app = ""
        · simp [appAcc, ho, ha]
        · simp [appAcc, ho, ha]
      rw [e1, e2, e3]
    · have ho' : o.inCall = false := by
        rw [Bool.not_eq_true] at ho; exact ho
      rw [callStep_skip b tbl o ho', ih tbl h]
      have hany : (o :: rest).any (fun o => o.inCall) = rest.any (fun o => o.inCall) := by
        simp [List.any_cons, ho']
      rw [hany]
      by_cases hr : rest.any (fun o => o.inCall) = true
      · rw [hr, if_pos rfl, if_pos rfl]
        have e1 : orAcc (fun o => o.cameraActive) 0 (o :: rest)
            = orAcc (fun o => o.cameraActive) 0 rest := by
          simp [orAcc, ho']
        have e2 : orAcc (fun o => o.micActive) 0 (o :: rest)
            = orAcc (fun o => o.micActive) 0 rest := by
          simp [orAcc, ho']
        have e3 : appAcc ("") (o :: rest) = appAcc ("") rest := by
          simp [appAcc, ho']
        rw [e1, e2, e3]
      · rw [Bool.not_eq_true] at hr
        rw [hr]
        simp

lemma orAcc_ge (f : CallObs → Bool) :
    ∀ (obs : List CallObs) (c : Int), c ≤ orAcc f c obs := by
  intro obs
  induction obs with
  | nil => intro c; exact le_refl c
  | cons o rest ih =>
    intro c
    have hstep : orAcc f c (o :: rest)
        = orAcc f (if o.inCall then max c (boolToInt (f o)) else c) rest := by
      rw [orAcc, List.foldl_cons, orAcc]
    rw [hstep]
    by_cases ho : o.inCall = true
    · rw [if_pos ho]
      exact le_trans (le_max_left _ _) (ih _)
    · rw [if_neg ho]
      exact ih c

lemma orAcc_nonneg (f : CallObs → Bool) (obs : List CallObs) : 0 ≤ orAcc f 0 obs :=
  orAcc_ge f obs 0

lemma orAcc_append (f : CallObs → Bool) (c : Int) (l₁ l₂ : List CallObs) :
    orAcc f c (l₁ ++ l₂) = orAcc f (orAcc f c l₁) l₂ := by
  rw [orAcc, orAcc, orAcc, List.foldl_append]

lemma appAcc_append (a : String) (l₁ l₂ : List CallObs) :
    appAcc a (l₁ ++ l₂) = appAcc (appAcc a l₁) l₂ := by
  rw [appAcc, appAcc, appAcc, List.foldl_append]

/-- C5: `recordCallObservation` is a no-op unless `inCall`; for a sequence of
observations landing in the same fresh minute bucket, the stored row has
`in_call = 1`, OR-accumulated (`MAX`) camera/microphone flags, and a
last-non-empty-wins app name; over any prefix split of the sequence the
stored in-call mark is never cleared and the flags never decrease; and an
empty app name never overwrites a stored one while a non-empty one always
wins. -/
theorem spec_C5_call_observation :
    (∀ (tbl : List VRow) (b : Int) (cam mic : Bool) (a : String),
      trackVideoCall tbl b false cam mic a = tbl)
    ∧ (∀ (b : Int) (obs : List CallObs) (tbl : List VRow),
        tbl.filter (vMatch b) = [] →
        (obs.foldl (callStep b) tbl).filter (vMatch b)
          = (if obs.any (fun o => o.inCall) then
              [{ minute := b, in_call := 1,
                   camera_active := orAcc (fun o => o.cameraActive) 0 obs,
                   microphone_active := orAcc (fun o => o.micActive) 0 obs,
                   app := appAcc ("") obs }]
            else []))
    ∧ (∀ (b : Int) (obs₁ obs₂ : List CallObs) (tbl : List VRow),
        tbl.filter (vMatch b) = [] →
        ∀ r₁ ∈ (obs₁.foldl (callStep b) tbl).filter (vMatch b),
        ∃ r₂ ∈ ((obs₁ ++ obs₂).foldl (callStep b) tbl).filter (vMatch b),
          r₁.camera_active ≤ r₂.camera_active
          ∧ r₁.microphone_active ≤ r₂.microphone_active
          ∧ r₂.in_call = 1)
    ∧ (∀ (a : String) (obs : List CallObs) (o : CallObs), o.inCall = true →
        (o.app = "" → appAcc a (obs ++ [o]) = appAcc a obs)
        ∧ (¬ o.app = "" → appAcc a (obs ++ [o]) = o.app)) := by
  refine ⟨?_, ?_, ?_, ?_⟩
  · intro tbl b cam mic a
    rfl
  · intro b obs tbl h
    exact callFold_fresh b obs tbl h
  · intro b obs₁ obs₂ tbl h r₁ hr₁
    rw [callFold_fresh b obs₁ tbl h] at hr₁
    by_cases hany : obs₁.any (fun o => o.inCall) = true
    · rw [if_pos hany] at hr₁
      have hr₁' := List.mem_singleton.mp hr₁
      have hmat : (obs₁.foldl (callStep b) tbl).filter (vMatch b)
          = [{ minute := b, in_call := 1,
                 camera_active := orAcc (fun o => o.cameraActive) 0 obs₁,
                 microphone_active := orAcc (fun o => o.micActive) 0 obs₁,
                 app := appAcc ("") obs₁ }] := by
        rw [callFold_fresh b obs₁ tbl h, if_pos hany]
      have hpres := callFold_present b obs₂ (obs₁.foldl (callStep b) tbl)
        (orAcc (fun o => o.cameraActive) 0 obs₁) (orAcc (fun o => o.micActive) 0 obs₁)
        (appAcc ("") obs₁) hmat
      rw [List.foldl_append]
      refine ⟨_, by rw [hpres]; exact List.mem_singleton.mpr rfl, ?_, ?_, rfl⟩
      · rw [hr₁']
        exact orAcc_ge (fun o => o.cameraActive) obs₂ _
      · rw [hr₁']
        exact orAcc_ge (fun o => o.micActive) obs₂ _
    · rw [if_neg hany] at hr₁
      exact absurd hr₁ (List.not_mem_nil r₁)
  · intro a obs o ho
    constructor
    · intro ha
      rw [appAcc_append]
      simp [appAcc, ho, ha]
    · intro ha
      rw [appAcc_append]
      simp [appAcc, ho, ha]

/-- Witness for C5 at a concrete input: the observations
`(inCall, cam, mic, app)` = (true, false, true, "zoom") then
(true, true, false, "") folded into an empty table at bucket 60. -/
def callObsW1 : CallObs :=
  { inCall := true, cameraActive := false, micActive := true, app := "zoom" }

def callObsW2 : CallObs :=
  { inCall := true, cameraActive := true, micActive := false, app := "" }

theorem spec_C5_call_observation_witness :
    (([] : List VRow).filter (vMatch 60) = [])
    ∧ ([callObsW1, callObsW2].foldl (callStep 60) []).filter (vMatch 60)
        = (if [callObsW1, callObsW2].any (fun o => o.inCall) then
            [{ minute := 60, in_call := 1,
                 camera_active := orAcc (fun o => o.cameraActive) 0 [callObsW1, callObsW2],
                 microphone_active := orAcc (fun o => o.micActive) 0 [callObsW1, callObsW2],
                 app := appAcc ("") [callObsW1, callObsW2] }]
          else []) := by
  refine ⟨by decide, ?_⟩
  exact spec_C5_call_observation.2.1 60 [callObsW1, callObsW2] [] (by decide)

/-! ## Estimated discrete call count (GetVideoCallStats)

Two formulations over the ascending list of distinct in-call minutes in
range: the `LAG` window-function query of the current GetVideoCallStats, and
the sequential-scan loop of the earlier revision's estimateCallCount
(`calls := 1; if minutes[i]-minutes[i-1] > 5*60 then calls++`). -/

/-- The sequential loop body: the number of consecutive pairs whose gap
exceeds 300 seconds. -/
def gapCount : List Int → Int
  | [] => 0
  | [_] => 0
  | a :: bb :: rest => (if bb - a > 300 then 1 else 0) + gapCount (bb :: rest)

/-- estimateCallCount (earlier-revision sequential formulation): 0 for an
empty list, otherwise 1 plus the number of gaps exceeding 5 minutes. -/
def estimateCallCount (minutes : List Int) : Int :=
  if minutes.isEmpty then 0 else 1 + gapCount minutes

/-- Pairs each minute after the first with its predecessor
(`LAG(minute) OVER (ORDER BY minute)` applied to the ascending list). -/
def lagAux (prev : Int) : List Int → List (Int × Option Int)
  | [] => []
  | m :: rest => (m, some prev) :: lagAux m rest

/-- All `(minute, LAG(minute))` pairs; the first row has a NULL predecessor. -/
def lagPairs : List Int → List (Int × Option Int)
  | [] => []
  | m :: rest => (m, none) :: lagAux m rest

/-- The outer `WHERE prev_minute IS NULL OR minute - prev_minute > 300`. -/
def windowPred (p : Int × Option Int) : Bool :=
  match p.2 with
  | none => true
  | some q => decide (300 < p.1 - q)

/-- The window-function formulation: `COUNT(*)` of the filtered lag pairs. -/
def windowCallCount (minutes : List Int) : Int :=
  (((lagPairs minutes).filter windowPred).length : Int)

lemma lagAux_filter_length :
    ∀ (l : List Int) (prev : Int),
    ((((lagAux prev l).filter windowPred).length : Int)) = gapCount (prev :: l) := by
  intro l
  induction l with
  | nil => intro prev; rfl
  | cons m rest ih =>
    intro prev
    rw [lagAux]
    by_cases hg : 300 < m - prev
    · have hp : windowPred (m, some prev) = true := by
        simp [windowPred, hg]
      rw [List.filter_cons, hp]
      simp only [if_true]
      rw [List.length_cons, gapCount]
      push_cast
      rw [ih m]
      have : (if m - prev > 300 then (1:Int) else 0) = 1 := by
        rw [if_pos hg]
      rw [this]
      ring
    · have hp : windowPred (m, some prev) = false := by
        simp [windowPred, hg]
      rw [List.filter_cons, hp]
      simp only [Bool.false_eq_true, if_false]
      rw [gapCount, ih m]
      have : (if m - prev > 300 then (1:Int) else 0) = 0 := by
        rw [if_neg hg]
      rw [this]
      ring

/-- C9: on every ascending list of in-call minutes, the window-function
formulation and the earlier sequential-scan loop compute the same estimated
call count: 0 for the empty list, otherwise 1 plus the number of consecutive
pairs more than 300 seconds apart. -/
theorem spec_C9_call_count_refinement (minutes : List Int)
    (hasc : List.Chain' (fun a bb => a < bb) minutes) :
    windowCallCount minutes = estimateCallCount minutes
    ∧ estimateCallCount minutes
        = (if minutes.isEmpty then 0 else 1 + gapCount minutes) := by
  refine ⟨?_, rfl⟩
  cases minutes with
  | nil => rfl
  | cons m rest =>
    rw [windowCallCount, lagPairs, List.filter_cons]
    have hp : windowPred (m, none) = true := rfl
    rw [hp]
    simp only [if_true]
    rw [List.length_cons, estimateCallCount]
    have : ((m :: rest).isEmpty) = false := rfl
    rw [this]
    simp only [Bool.false_eq_true, if_false]
    push_cast
    rw [lagAux_filter_length rest m]
    ring

/-- Witness for C9 at a concrete input: in-call minutes 600, 660, 1200
(one gap of 540 s > 300 s) give call count 2 under both formulations. -/
theorem spec_C9_call_count_refinement_witness :
    List.Chain' (fun a bb => a < bb) [(600:Int), 660, 1200]
    ∧ windowCallCount [600, 660, 1200] = estimateCallCount [600, 660, 1200]
    ∧ windowCallCount [600, 660, 1200] = 2 := by
  have hc : List.Chain' (fun a bb => a < bb) [(600:Int), 660, 1200] := by
    simp [List.chain'_cons]
  refine ⟨hc, (spec_C9_call_count_refinement _ hc).1, by decide⟩

/-! ## Federation manager (Tracker.refreshAttachedLocked / recreateViews)

The filesystem scan result (`filepath.Glob` basenames) and the combined
outcome of `ATTACH DATABASE` plus the `hasExpectedTables` schema check are
opaque inputs.  `views` records, for each of the three `all_*` union views,
the list of sources (`main` plus peer aliases) it reads from at the moment
it was last (re)created; the real recreateViews builds the same source list
for all three views, so one list models all three. -/

/-- sanitizeAlias: strip the `.db` extension, keep `[A-Za-z0-9]`, replace
everything else with `_`, and prefix `db_`. -/
def sanitizeAlias (filename : String) : String :=
  let name := if filename.endsWith (".db") then filename.dropRight 3 else filename
  "db_" ++ String.mk (name.toList.map (fun c =>
    if (('a' ≤ c ∧ c ≤ 'z') ∨ ('A' ≤ c ∧ c ≤ 'Z') ∨ ('0' ≤ c ∧ c ≤ '9')) then c else '_'))

/-- The federation state: the attached peer set (filename, alias) and the
source list of the current `all_*` views. -/
structure FedState where
  attached : List (String × String)
  views : List String
  deriving DecidableEq, Repr

/-- recreateViews: each `all_*` view reads `main.<table>` UNION ALL every
currently attached peer alias's same-named table. -/
def recreateViews (attached : List (String × String)) : List String :=
  "main" :: attached.map (fun p => p.2)

/-- refreshAttachedLocked for a successful directory scan: drop attached
peers whose file vanished, attach new files that pass `attachOk` (attach
succeeded and the three expected tables are present), and recreate the
views only when `changed || len(attached) == 0` — where `changed` is set
only by successful new attachments, not by detachments. -/
def refreshAttachedLocked (s : FedState) (scan : List String) (hostname : String)
    (attachOk : String → Bool) : FedState :=
  let ownFile := hostname ++ ".db"
  let current := scan.filter (fun bn => !(bn == ownFile || bn == "busygraph.db"))
  let kept := s.attached.filter (fun p => current.contains p.1)
  let newFiles := current.filter
    (fun f => !((s.attached.map (fun p => p.1)).contains f) && attachOk f)
  let attached := kept ++ newFiles.map (fun f => (f, sanitizeAlias f))
  let changed := !newFiles.isEmpty
  if changed || attached.isEmpty then
    { attached := attached, views := recreateViews attached }
  else
    { attached := attached, views := s.views }

/-- The federation state with peers `a.db`, `b.db` attached and the views
unioning `main`, `db_a`, `db_b`. -/
def fedBugState : FedState :=
  { attached := [("a.db", "db_a"), ("b.db", "db_b")], views := ["main", "db_a", "db_b"] }

/-- C2, evaluation at the failing input: with `a.db` and `b.db` attached, a
scan that now sees only `a.db` detaches `b.db` (the attached set changes)
but does not rebuild the views — they still union the just-removed source
`db_b` — because the detach loop never sets `changed` and the remaining
attached set is non-empty. -/
theorem spec_C2_detach_no_rebuild :
    (refreshAttachedLocked fedBugState ["a.db"] ("host") (fun _ => true)).attached
        = [("a.db", "db_a")]
    ∧ (refreshAttachedLocked fedBugState ["a.db"] ("host") (fun _ => true)).attached
        ≠ fedBugState.attached
    ∧ (refreshAttachedLocked fedBugState ["a.db"] ("host") (fun _ => true)).views
        = ["main", "db_a", "db_b"]
    ∧ (refreshAttachedLocked fedBugState ["a.db"] ("host") (fun _ => true)).views
        ≠ recreateViews
            (refreshAttachedLocked fedBugState ["a.db"] ("host") (fun _ => true)).attached := by
  refine ⟨by decide, by decide, by decide, by decide⟩

/-! ## Stats query engine (Tracker.GetStats and friends)

`Env` packages the opaque wall-clock/calendar inputs:
`nowUnix = time.Now().Unix()`, `yearStart = now.AddDate(-1,0,0).Unix()`,
`calStart = now.AddDate(0,0,-365).Unix()`, and the localtime renderings
`localDay` (unix time of the local midnight of the minute's calendar day,
`strftime %Y-%m-%d ... localtime`), `hourOf` (`strftime %H`), `dowOf`
(`strftime %w`).  Each `if ff.<q>` models the `err == nil` guard around the
corresponding SQL query: a failed query leaves the zero-initialised field
untouched.  Where SQL/Go iteration order is unspecified (map iteration,
`GROUP BY` output, tie-breaking in `ORDER BY`), a canonical deterministic
order is fixed (ascending for timestamps, stable insertion sort for
count-descending lists); no claim depends on those orders. -/

/-- Opaque clock/calendar environment of one GetStats call. -/
structure Env where
  nowUnix : Int
  yearStart : Int
  calStart : Int
  localDay : Int → Int
  hourOf : Int → Int
  dowOf : Int → Int

/-- One range's resolved configuration: start time, bucket width in seconds,
and the maximum number of history points. -/
structure RangeCfg where
  startTime : Int
  width : Int
  points : Nat
  deriving DecidableEq, Repr

/-- The `switch timeRange` at the top of GetStats (and the same range
resolution in GetVideoCallStats): `24h`, `7d`, `30d`, `1y`, default `1h`. -/
def rangeCfg (nowUnix yearStart : Int) (timeRange : String) : RangeCfg :=
  if timeRange = "24h" then { startTime := nowUnix - 86400, width := 60, points := 1440 }
  else if timeRange = "7d" then { startTime := nowUnix - 604800, width := 3600, points := 168 }
  else if timeRange = "30d" then { startTime := nowUnix - 2592000, width := 3600, points := 720 }
  else if timeRange = "1y" then { startTime := yearStart, width := 86400, points := 365 }
  else { startTime := nowUnix - 3600, width := 60, points := 60 }

/-- `nowBucket := (nowUnix / groupBySeconds) * groupBySeconds` (Go `int64`
division truncates toward zero). -/
def nowBucket (nowUnix w : Int) : Int :=
  (Int.tdiv nowUnix w) * w

/-- Is the row inside the queried range (`WHERE minute >= ?`)? -/
def kInRange (st : Int) (r : KRow) : Bool :=
  decide (st ≤ r.minute)

/-- `SELECT COALESCE(SUM(count), 0) FROM all_keystrokes WHERE minute >= ?`. -/
def totalKeystrokes (ks : List KRow) (st : Int) : Int :=
  ((ks.filter (kInRange st)).map (fun r => r.count)).sum

/-- The re-bucketing `CAST(minute / w AS INTEGER) * w` (SQLite integer
division truncates toward zero). -/
def bucketOfMinute (w m : Int) : Int :=
  (Int.tdiv m w) * w

/-- The aggregated history count looked up at timestamp `ts` (`historyMap`
with its zero default): for a 60 s width the rows are grouped by raw minute,
otherwise by the re-bucketed minute. -/
def histMapAt (ks : List KRow) (st w ts : Int) : Int :=
  if w = 60 then
    ((ks.filter (fun r => kInRange st r && decide (r.minute = ts))).map
      (fun r => r.count)).sum
  else
    ((ks.filter (fun r => kInRange st r && decide (bucketOfMinute w r.minute = ts))).map
      (fun r => r.count)).sum

/-- The gap-fill loop of GetStats, descending: for `i < pts` emit
`nowBucket - i*w`, breaking at the first timestamp below `startTime`. -/
def gapFillDesc (nb st w : Int) (pts : Nat) : List Int :=
  ((List.range pts).map (fun i : Nat => nb - (i : Int) * w)).takeWhile
    (fun ts => decide (st ≤ ts))

/-- The history series: the gap-fill loop followed by the in-place reverse,
each timestamp paired with its (possibly zero) aggregated count. -/
def historySeries (nb st w : Int) (pts : Nat) (hm : Int → Int) : List TimePoint :=
  ((gapFillDesc nb st w pts).map (fun ts => { time := ts, count := hm ts })).reverse

/-- Insertion (descending by count, stable) used to model
`ORDER BY total DESC` with its unspecified tie order. -/
def insertKeyDesc (x : KeyCount) : List KeyCount → List KeyCount
  | [] => [x]
  | y :: ys => if y.count < x.count then x :: y :: ys else y :: insertKeyDesc x ys

/-- Stable descending sort by count. -/
def sortKeysDesc (l : List KeyCount) : List KeyCount :=
  l.foldr insertKeyDesc []

/-- Ascending insertion for Int lists (canonical order for grouped rows). -/
def insertAsc (x : Int) : List Int → List Int
  | [] => [x]
  | y :: ys => if x ≤ y then x :: y :: ys else y :: insertAsc x ys

/-- Ascending sort for Int lists. -/
def sortAsc (l : List Int) : List Int :=
  l.foldr insertAsc []

/-- The summed count of one key over the range. -/
def keyTotal (ks : List KRow) (st : Int) (k : String) : Int :=
  ((ks.filter (fun r => kInRange st r && decide (r.key_char = k))).map
    (fun r => r.count)).sum

/-- `SELECT key_char, SUM(count) ... GROUP BY key_char ORDER BY total DESC
LIMIT 10`. -/
def topKeysOf (ks : List KRow) (st : Int) : List KeyCount :=
  (sortKeysDesc ((((ks.filter (kInRange st)).map (fun r => r.key_char)).dedup).map
    (fun k => { key := k, count := keyTotal ks st k }))).take 10

/-- The summed count of one local calendar day. -/
def dayTotal (localDay : Int → Int) (ks : List KRow) (calStart : Int) (d : Int) : Int :=
  ((ks.filter (fun r => kInRange calStart r && decide (localDay r.minute = d))).map
    (fun r => r.count)).sum

/-- The calendar query: daily totals of the trailing 365 days, grouped by
local calendar day, ascending, each day emitted at its local midnight. -/
def calendarSeries (localDay : Int → Int) (ks : List KRow) (calStart : Int) :
    List TimePoint :=
  (sortAsc (((ks.filter (kInRange calStart)).map (fun r => localDay r.minute)).dedup)).map
    (fun d => { time := d, count := dayTotal localDay ks calStart d })

/-- `SELECT metric_name, SUM(value) FROM all_mouse_metrics WHERE minute >= ?
GROUP BY metric_name`, looked up at one metric name. -/
noncomputable def mouseSum (mm : List MRow) (st : Int) (nm : String) : ℝ :=
  ((mm.filter (fun r => decide (st ≤ r.minute) && decide (r.metric_name = nm))).map
    (fun r => r.value)).sum

/-- Go `int(x)` on a float64: truncation toward zero. -/
noncomputable def goIntOfFloat (x : ℝ) : Int :=
  if 0 ≤ x then ⌊x⌋ else ⌈x⌉

/-- The per-minute keystroke sum (grouping for the KPM max query). -/
def minuteSum (ks : List KRow) (st : Int) (m : Int) : Int :=
  ((ks.filter (fun r => kInRange st r && decide (r.minute = m))).map
    (fun r => r.count)).sum

/-- `SELECT COALESCE(MAX(minute_total), 0) FROM (SELECT SUM(count) ...
GROUP BY minute)`. -/
def kpmMaxOf (ks : List KRow) (st : Int) : Int :=
  ((((ks.filter (kInRange st)).map (fun r => r.minute)).dedup).map
    (minuteSum ks st)).max?.getD 0

/-- The backspace count: summed count of the `[BACKSPACE]` label in range. -/
def backspaceCountOf (ks : List KRow) (st : Int) : Int :=
  ((ks.filter (fun r => kInRange st r && decide (r.key_char = "[BACKSPACE]"))).map
    (fun r => r.count)).sum

/-- The active minutes: `SELECT DISTINCT minute FROM all_keystrokes WHERE
minute >= ? UNION SELECT minute FROM all_video_calls WHERE minute >= ? AND
in_call = 1` (SQL UNION removes duplicates). -/
def activeMinutes (ks : List KRow) (vc : List VRow) (st : Int) : List Int :=
  (((ks.filter (kInRange st)).map (fun r => r.minute))
    ++ ((vc.filter (fun r => decide (st ≤ r.minute) && decide (r.in_call = 1))).map
        (fun r => r.minute))).dedup

/-- Multiplicity of a value in a list. -/
def countEq (l : List Int) (h : Int) : Nat :=
  (l.filter (fun x => decide (x = h))).length

/-- The busiest hour / day-of-week: the group (under `f`) of the active
minutes with the most members, `-1` when no row exists (ties broken by the
unspecified storage order; canonically, the first maximal group wins). -/
def busiestOf (f : Int → Int) (mins : List Int) : Int :=
  match (mins.map f).dedup with
  | [] => -1
  | d :: ds => ds.foldl
      (fun best h => if countEq (mins.map f) best < countEq (mins.map f) h then h else best) d

/-- `SELECT COALESCE(SUM(CASE WHEN in_call = 1 THEN 1 ELSE 0 END), 0) FROM
all_video_calls WHERE minute >= ?`. -/
def inCallCountOf (vc : List VRow) (st : Int) : Int :=
  ((vc.filter (fun r => decide (st ≤ r.minute))).map
    (fun r => if r.in_call = 1 then (1 : Int) else 0)).sum

/-- tracker.KPMStats. -/
structure KPMStats where
  avg : ℚ
  max : Int

/-- tracker.TypingStats. -/
structure TypingStats where
  charsPerBackspace : ℚ
  backspaces : Int

/-- tracker.MouseStats. -/
structure MouseStats where
  distance : ℝ
  clicksLeft : Int
  clicksRight : Int
  scroll : Int

/-- tracker.VideoCallState (left at its zero value by GetStats). -/
structure VideoCallState where
  inCall : Bool
  cameraActive : Bool
  microphoneActive : Bool
  cameraUsers : List String
  microphoneUsers : List String

/-- The Go zero value of VideoCallState. -/
def zeroVideoCallState : VideoCallState :=
  { inCall := false, cameraActive := false, microphoneActive := false,
    cameraUsers := [], microphoneUsers := [] }

/-- tracker.Stats. -/
structure Stats where
  total : Int
  kpm : KPMStats
  typing : TypingStats
  topKeys : List KeyCount
  history : List TimePoint
  calendar : List TimePoint
  mouse : MouseStats
  videoCall : VideoCallState
  busiestHour : Int
  busiestDay : Int
  avgCallMinutesPerDay : ℚ

/-- Which of the queries issued by GetStats fail (`err != nil`). -/
structure StatsFail where
  totalQ : Bool
  topKeysQ : Bool
  historyQ : Bool
  calendarQ : Bool
  mouseQ : Bool
  kpmMaxQ : Bool
  backspaceQ : Bool
  busiestHourQ : Bool
  busiestDayQ : Bool
  avgCallQ : Bool

/-- All queries succeed. -/
def noStatsFail : StatsFail :=
  ⟨false, false, false, false, false, false, false, false, false, false⟩

/-- All queries fail. -/
def allStatsFail : StatsFail :=
  ⟨true, true, true, true, true, true, true, true, true, true⟩

/-- Tracker.GetStats against the current contents of the three `all_*`
views. -/
noncomputable def getStats (env : Env) (ks : List KRow) (mm : List MRow) (vc : List VRow)
    (timeRange : String) (ff : StatsFail) : Stats :=
  let cfg := rangeCfg env.nowUnix env.yearStart timeRange
  let st := cfg.startTime
  let nb := nowBucket env.nowUnix cfg.width
  let total := if ff.totalQ then 0 else totalKeystrokes ks st
  let backspaces := if ff.backspaceQ then 0 else backspaceCountOf ks st
  let minutes : ℚ := max 1 (((env.nowUnix - st : Int) : ℚ) / 60)
  let days : ℚ := max 1 (((env.nowUnix - st : Int) : ℚ) / 86400)
  { total := total,
    kpm := { avg := (total : ℚ) / minutes,
             max := if ff.kpmMaxQ then 0 else kpmMaxOf ks st },
    typing := { charsPerBackspace :=
                  if 0 < backspaces then ((total - backspaces : Int) : ℚ) / (backspaces : ℚ)
                  else 0,
                backspaces := backspaces },
    topKeys := if ff.topKeysQ then [] else topKeysOf ks st,
    history := historySeries nb st cfg.width cfg.points
      (if ff.historyQ then fun _ => 0 else histMapAt ks st cfg.width),
    calendar := if ff.calendarQ then [] else calendarSeries env.localDay ks env.calStart,
    mouse := if ff.mouseQ then { distance := 0, clicksLeft := 0, clicksRight := 0, scroll := 0 }
      else { distance := mouseSum mm st ("distance"),
             clicksLeft := goIntOfFloat (mouseSum mm st ("clicks_left")),
             clicksRight := goIntOfFloat (mouseSum mm st ("clicks_right")),
             scroll := goIntOfFloat (mouseSum mm st ("scroll")) },
    videoCall := zeroVideoCallState,
    busiestHour := if ff.busiestHourQ then -1 else busiestOf env.hourOf (activeMinutes ks vc st),
    busiestDay := if ff.busiestDayQ then -1 else busiestOf env.dowOf (activeMinutes ks vc st),
    avgCallMinutesPerDay := if ff.avgCallQ then 0 else ((inCallCountOf vc st : Int) : ℚ) / days }

/-- The per-minute keystroke sum over the whole history (GetHeatmap). -/
def kMinuteSumAll (ks : List KRow) (m : Int) : Int :=
  ((ks.filter (fun r => decide (r.minute = m))).map (fun r => r.count)).sum

/-- The per-minute summed mouse distance over the whole history. -/
noncomputable def mDistSumAll (mm : List MRow) (m : Int) : ℝ :=
  ((mm.filter (fun r => decide (r.minute = m) && decide (r.metric_name = "distance"))).map
    (fun r => r.value)).sum

/-- Tracker.GetHeatmap: keystroke counts plus distance/100, merged per
minute over the whole history.  A failing keystroke query returns the empty
(nil) series; a failing mouse query drops the distance contribution.  The Go
map iteration order is unspecified; ascending timestamps are canonical. -/
noncomputable def getHeatmap (ks : List KRow) (mm : List MRow) (failK failM : Bool) :
    List HeatmapPoint :=
  if failK then []
  else
    let mmDist := mm.filter (fun r => decide (r.metric_name = "distance"))
    let minutesList := (ks.map (fun r => r.minute))
      ++ (if failM then [] else mmDist.map (fun r => r.minute))
    (sortAsc minutesList.dedup).map (fun m =>
      { timestamp := m,
        value := (kMinuteSumAll ks m : ℝ) + (if failM then 0 else mDistSumAll mm m / 100) })

/-- Tracker.GetVideoCallHeatmap: the in-call rows of the whole history, each
emitted as `(minute, float64(in_call))`; nil on a failing query.  The scan
order is unspecified; the view's row order is kept. -/
def getVideoCallHeatmap (vc : List VRow) (fail : Bool) : List HeatmapPoint :=
  if fail then []
  else (vc.filter (fun r => decide (r.in_call = 1))).map
    (fun r => { timestamp := r.minute, value := ((r.in_call : Int) : ℝ) })

/-- tracker.AppCallStats. -/
structure AppCallStats where
  app : String
  minutes : Int
  deriving DecidableEq, Repr

/-- tracker.VideoCallStats. -/
structure VideoCallStats where
  totalMinutes : Int
  totalCalls : Int
  cameraMinutes : Int
  microphoneMinutes : Int
  appBreakdown : List AppCallStats
  dailyMinutes : List TimePoint
  heatmap : List HeatmapPoint

/-- Which of the queries issued by GetVideoCallStats fail. -/
structure CallStatsFail where
  summaryQ : Bool
  callsQ : Bool
  appQ : Bool
  dailyQ : Bool
  heatQ : Bool

/-- All GetVideoCallStats queries fail. -/
def allCallStatsFail : CallStatsFail :=
  ⟨true, true, true, true, true⟩

/-- Is the video-call row inside the range? -/
def vInRange (st : Int) (r : VRow) : Bool :=
  decide (st ≤ r.minute)

/-- The ascending list of in-call minutes in range fed to the LAG window
(duplicates across attached peers are kept, as in the SQL). -/
def inCallMinutesSorted (vc : List VRow) (st : Int) : List Int :=
  sortAsc ((vc.filter (fun r => vInRange st r && decide (r.in_call = 1))).map
    (fun r => r.minute))

/-- Descending-by-minutes insertion for the app breakdown. -/
def insertAppDesc (x : AppCallStats) : List AppCallStats → List AppCallStats
  | [] => [x]
  | y :: ys => if y.minutes < x.minutes then x :: y :: ys else y :: insertAppDesc x ys

/-- Stable descending sort for the app breakdown. -/
def sortAppsDesc (l : List AppCallStats) : List AppCallStats :=
  l.foldr insertAppDesc []

/-- The per-app in-call minute count
(`WHERE minute >= ? AND in_call = 1 AND app != ''  GROUP BY app`). -/
def appBreakdownOf (vc : List VRow) (st : Int) : List AppCallStats :=
  let rows := vc.filter (fun r => vInRange st r && decide (r.in_call = 1)
    && !(decide (r.app = "")))
  sortAppsDesc (((rows.map (fun r => r.app)).dedup).map
    (fun a => { app := a,
                minutes := ((rows.filter (fun r => decide (r.app = a))).length : Int) }))

/-- The daily in-call minute counts
(`GROUP BY day ORDER BY day ASC`, days at local midnight). -/
def dailyMinutesOf (localDay : Int → Int) (vc : List VRow) (st : Int) : List TimePoint :=
  let rows := vc.filter (fun r => vInRange st r && decide (r.in_call = 1))
  (sortAsc ((rows.map (fun r => localDay r.minute)).dedup)).map
    (fun d => { time := d,
                count := ((rows.filter (fun r => decide (localDay r.minute = d))).length : Int) })

/-- Tracker.GetVideoCallStats. -/
def getVideoCallStats (env : Env) (vc : List VRow) (timeRange : String)
    (ff : CallStatsFail) : VideoCallStats :=
  let st := (rangeCfg env.nowUnix env.yearStart timeRange).startTime
  { totalMinutes := if ff.summaryQ then 0 else
      ((vc.filter (vInRange st)).map (fun r => if r.in_call = 1 then (1 : Int) else 0)).sum,
    cameraMinutes := if ff.summaryQ then 0 else
      ((vc.filter (vInRange st)).map (fun r => if r.camera_active = 1 then (1 : Int) else 0)).sum,
    microphoneMinutes := if ff.summaryQ then 0 else
      ((vc.filter (vInRange st)).map
        (fun r => if r.microphone_active = 1 then (1 : Int) else 0)).sum,
    totalCalls := if ff.callsQ then 0 else windowCallCount (inCallMinutesSorted vc st),
    appBreakdown := if ff.appQ then [] else appBreakdownOf vc st,
    dailyMinutes := if ff.dailyQ then [] else dailyMinutesOf env.localDay vc st,
    heatmap := if ff.heatQ then [] else (vc.filter (vInRange st)).map
      (fun r => { timestamp := r.minute, value := ((r.in_call : Int) : ℝ) }) }

/-! ## The history series in closed form (claims C1, C4, C10) -/

lemma takeWhile_map_range :
    ∀ (pts : Nat) (f : Nat → Int) (p : Int → Bool) (m : Nat),
    (∀ i, p (f i) = true ↔ i < m) →
    ((List.range pts).map f).takeWhile p = (List.range (min pts m)).map f := by
  intro pts
  induction pts with
  | zero => intro f p m h; simp
  | succ n ih =>
    intro f p m h
    rw [List.range_succ_eq_map, List.map_cons]
    cases m with
    | zero =>
      have h0 : p (f 0) = false := by
        rw [Bool.eq_false_iff]
        intro hc
        exact absurd ((h 0).mp hc) (by omega)
      rw [List.takeWhile_cons_of_neg (by rw [h0]; exact Bool.false_ne_true)]
      simp
    | succ mm =>
      have h0 : p (f 0) = true := (h 0).mpr (Nat.succ_pos mm)
      rw [List.takeWhile_cons_of_pos h0, List.map_map,
        ih (f ∘ Nat.succ) p mm (fun i => by
          rw [Function.comp_apply]
          constructor
          · intro hh
            exact Nat.lt_of_succ_lt_succ ((h (i + 1)).mp hh)
          · intro hh
            exact (h (i + 1)).mpr (Nat.succ_lt_succ hh)),
        Nat.succ_min_succ, List.range_succ_eq_map, List.map_cons, List.map_map]

lemma bucket_pred_iff (nb st w : Int) (hw : 0 < w) (hnb : st ≤ nb) (i : Nat) :
    (decide (st ≤ nb - (i : Int) * w) = true) ↔ i < ((nb - st) / w).toNat + 1 := by
  rw [decide_eq_true_iff]
  have hq0 : 0 ≤ (nb - st) / w := Int.ediv_nonneg (by omega) (by omega)
  constructor
  · intro hi
    have h1 : (i : Int) * w ≤ nb - st := by omega
    have h2 : (i : Int) ≤ (nb - st) / w := (Int.le_ediv_iff_mul_le hw).mpr h1
    omega
  · intro hi
    have h2 : (i : Int) ≤ (nb - st) / w := by omega
    have h1 : (i : Int) * w ≤ nb - st := (Int.le_ediv_iff_mul_le hw).mp h2
    omega

/-- The number of points the gap-fill loop emits: `max points` capped by the
number of aligned buckets from `nowBucket` down to `startTime`. -/
def expectedPoints (nb st w : Int) (pts : Nat) : Nat :=
  min pts (((nb - st) / w).toNat + 1)

/-- The amended expected history: exactly the aligned timestamps
`nowBucket - i*width` for `i < expectedPoints`, ascending, each carrying its
aggregated (possibly zero) count. -/
def expectedHistory (ks : List KRow) (nb st w : Int) (pts : Nat) : List TimePoint :=
  ((List.range (expectedPoints nb st w pts)).map
    (fun i : Nat => { time := nb - (i : Int) * w,
                      count := histMapAt ks st w (nb - (i : Int) * w) })).reverse

lemma gapFillDesc_eq (nb st w : Int) (pts : Nat) (hw : 0 < w) (hnb : st ≤ nb) :
    gapFillDesc nb st w pts
      = (List.range (expectedPoints nb st w pts)).map (fun i : Nat => nb - (i : Int) * w) := by
  rw [gapFillDesc, expectedPoints]
  exact takeWhile_map_range pts (fun i : Nat => nb - (i : Int) * w)
    (fun ts => decide (st ≤ ts)) _ (fun i => bucket_pred_iff nb st w hw hnb i)

lemma historySeries_eq (ks : List KRow) (nb st w : Int) (pts : Nat)
    (hw : 0 < w) (hnb : st ≤ nb) :
    historySeries nb st w pts (histMapAt ks st w) = expectedHistory ks nb st w pts := by
  rw [historySeries, gapFillDesc_eq nb st w pts hw hnb, expectedHistory, List.map_map]
  rfl

lemma rangeCfg_width_pos (nowUnix yearStart : Int) (timeRange : String) :
    0 < (rangeCfg nowUnix yearStart timeRange).width := by
  rw [rangeCfg]
  split_ifs <;> norm_num

lemma rangeCfg_start_le (nowUnix yearStart : Int) (timeRange : String)
    (hnow : 0 ≤ nowUnix) (hyear : yearStart ≤ nowUnix - 86400) :
    (rangeCfg nowUnix yearStart timeRange).startTime
      ≤ nowBucket nowUnix (rangeCfg nowUnix yearStart timeRange).width := by
  rw [rangeCfg, nowBucket]
  split_ifs <;>
    simp only [] <;>
    rw [Int.tdiv_eq_ediv hnow (by norm_num)] <;>
    omega

/-- C1 amended: for every range (24h, 7d, 30d, 1y, and the 1h default) the
history series returned by GetStats is exactly the ascending sequence of
aligned timestamps `nowBucket - i*width` for
`i < min (maxPoints) (#aligned buckets from startTime to nowBucket)`, each
with the aggregated (zero-defaulted) count of its bucket; consecutive points
are exactly `width` apart, so the series is gap-free — but it is capped at
`maxPoints`, so when the range holds more aligned buckets than `maxPoints`
(a leap-year `1y` range, or a minute-aligned `now`) the oldest buckets of
the range are dropped. -/
theorem spec_C1_history (env : Env) (ks : List KRow) (mm : List MRow) (vc : List VRow)
    (timeRange : String) (hnow : 0 ≤ env.nowUnix)
    (hyear : env.yearStart ≤ env.nowUnix - 86400) :
    (getStats env ks mm vc timeRange noStatsFail).history
        = expectedHistory ks
            (nowBucket env.nowUnix (rangeCfg env.nowUnix env.yearStart timeRange).width)
            (rangeCfg env.nowUnix env.yearStart timeRange).startTime
            (rangeCfg env.nowUnix env.yearStart timeRange).width
            (rangeCfg env.nowUnix env.yearStart timeRange).points
    ∧ (getStats env ks mm vc timeRange noStatsFail).history.length
        = expectedPoints
            (nowBucket env.nowUnix (rangeCfg env.nowUnix env.yearStart timeRange).width)
            (rangeCfg env.nowUnix env.yearStart timeRange).startTime
            (rangeCfg env.nowUnix env.yearStart timeRange).width
            (rangeCfg env.nowUnix env.yearStart timeRange).points
    ∧ List.Chain'
        (fun p q => q.time = p.time + (rangeCfg env.nowUnix env.yearStart timeRange).width)
        (getStats env ks mm vc timeRange noStatsFail).history
    ∧ (∀ tp ∈ (getStats env ks mm vc timeRange noStatsFail).history,
        tp.count = histMapAt ks (rangeCfg env.nowUnix env.yearStart timeRange).startTime
          (rangeCfg env.nowUnix env.yearStart timeRange).width tp.time) := by
  have hw := rangeCfg_width_pos env.nowUnix env.yearStart timeRange
  have hnb := rangeCfg_start_le env.nowUnix env.yearStart timeRange hnow hyear
  have hhist : (getStats env ks mm vc timeRange noStatsFail).history
      = historySeries (nowBucket env.nowUnix (rangeCfg env.nowUnix env.yearStart timeRange).width)
          (rangeCfg env.nowUnix env.yearStart timeRange).startTime
          (rangeCfg env.nowUnix env.yearStart timeRange).width
          (rangeCfg env.nowUnix env.yearStart timeRange).points
          (histMapAt ks (rangeCfg env.nowUnix env.yearStart timeRange).startTime
            (rangeCfg env.nowUnix env.yearStart timeRange).width) := rfl
  have heq := historySeries_eq ks
    (nowBucket env.nowUnix (rangeCfg env.nowUnix env.yearStart timeRange).width)
    (rangeCfg env.nowUnix env.yearStart timeRange).startTime
    (rangeCfg env.nowUnix env.yearStart timeRange).width
    (rangeCfg env.nowUnix env.yearStart timeRange).points hw hnb
  refine ⟨hhist.trans heq, ?_, ?_, ?_⟩
  · rw [hhist, heq, expectedHistory, List.length_reverse, List.length_map,
      List.length_range]
  · rw [hhist, heq, expectedHistory, List.chain'_reverse]
    rw [List.chain'_map]
    cases hp : expectedPoints
        (nowBucket env.nowUnix (rangeCfg env.nowUnix env.yearStart timeRange).width)
        (rangeCfg env.nowUnix env.yearStart timeRange).startTime
        (rangeCfg env.nowUnix env.yearStart timeRange).width
        (rangeCfg env.nowUnix env.yearStart timeRange).points with
    | zero => simp
    | succ n =>
      rw [List.chain'_range_succ]
      intro i hi
      show (nowBucket env.nowUnix (rangeCfg env.nowUnix env.yearStart timeRange).width
          - (i : Int) * (rangeCfg env.nowUnix env.yearStart timeRange).width) = _
      push_cast
      ring
  · intro tp htp
    rw [hhist, heq, expectedHistory, List.mem_reverse] at htp
    obtain ⟨i, hi, hback⟩ := List.mem_map.mp htp
    rw [← hback]

/-- A concrete environment for the C1 witness. -/
def envW : Env :=
  { nowUnix := 100000, yearStart := 0, calStart := 0,
    localDay := fun _ => 0, hourOf := fun _ => 0, dowOf := fun _ => 0 }

/-- Witness for C1 amended at a concrete input: the 7d range at
`now = 100000` with an empty table. -/
theorem spec_C1_history_witness :
    0 ≤ envW.nowUnix
    ∧ envW.yearStart ≤ envW.nowUnix - 86400
    ∧ (getStats envW [] [] [] ("7d") noStatsFail).history
        = expectedHistory []
            (nowBucket envW.nowUnix (rangeCfg envW.nowUnix envW.yearStart ("7d")).width)
            (rangeCfg envW.nowUnix envW.yearStart ("7d")).startTime
            (rangeCfg envW.nowUnix envW.yearStart ("7d")).width
            (rangeCfg envW.nowUnix envW.yearStart ("7d")).points := by
  refine ⟨by decide, by decide, ?_⟩
  exact (spec_C1_history envW [] [] [] ("7d") (by decide) (by decide)).1

/-- A concrete environment for the C1 counterexample: `now` one second past
a day boundary, with the `1y` range spanning a leap year, so
`yearStart = now - 366·86400`. -/
def envC1 : Env :=
  { nowUnix := 63244801, yearStart := 31622401, calStart := 0,
    localDay := fun _ => 0, hourOf := fun _ => 0, dowOf := fun _ => 0 }

/-- Counterexample to C1 as stated: for the `1y` range over a leap year the
series is capped at 365 points, so the aligned bucket `31708800` — inside
the requested range (`startTime ≤ 31708800 ≤ nowBucket`, day-aligned with
the walk from `nowBucket`) — is missing from the history. -/
theorem spec_C1_counterexample :
    (rangeCfg envC1.nowUnix envC1.yearStart ("1y")).startTime ≤ 31708800
    ∧ (31708800 : Int)
        ≤ nowBucket envC1.nowUnix (rangeCfg envC1.nowUnix envC1.yearStart ("1y")).width
    ∧ (86400 : Int)
        ∣ (nowBucket envC1.nowUnix (rangeCfg envC1.nowUnix envC1.yearStart ("1y")).width
            - 31708800)
    ∧ ¬ (31708800 : Int)
        ∈ ((getStats envC1 [] [] [] ("1y") noStatsFail).history.map (fun tp => tp.time)) := by
  refine ⟨by decide, by decide, by decide, by decide⟩

/-! ## Total versus summed history (claim C4) -/

lemma sum_map_zero (L : List Int) : (L.map (fun _ => (0 : Int))).sum = 0 := by
  induction L with
  | nil => rfl
  | cons a L ih => simp [ih]

lemma sum_map_add (L : List Int) (f g : Int → Int) :
    (L.map (fun x => f x + g x)).sum = (L.map f).sum + (L.map g).sum := by
  induction L with
  | nil => rfl
  | cons a L ih =>
    simp only [List.map_cons, List.sum_cons, ih]
    ring

lemma sum_indicator (c v : Int) :
    ∀ L : List Int, L.Nodup →
    (L.map (fun ts => if v = ts then c else 0)).sum = if v ∈ L then c else 0 := by
  intro L
  induction L with
  | nil => intro _; simp
  | cons a L ih =>
    intro hnd
    rw [List.nodup_cons] at hnd
    rw [List.map_cons, List.sum_cons, ih hnd.2]
    by_cases hv : v = a
    · subst hv
      rw [if_pos rfl, if_neg hnd.1, if_pos (List.mem_cons_self v L)]
      ring
    · rw [if_neg hv]
      by_cases hm : v ∈ L
      · rw [if_pos hm, if_pos (List.mem_cons_of_mem a hm)]
        ring
      · rw [if_neg hm, if_neg (by
          intro hc
          rcases List.mem_cons.mp hc with h1 | h2
          · exact hv h1
          · exact hm h2)]
        ring

lemma sum_hist_counts (st : Int) :
    ∀ (tbl : List KRow) (L : List Int), L.Nodup →
    (L.map (fun ts => ((tbl.filter (fun r => kInRange st r && decide (r.minute = ts))).map
        (fun r => r.count)).sum)).sum
      = ((tbl.filter (fun r => kInRange st r && decide (r.minute ∈ L))).map
          (fun r => r.count)).sum := by
  intro tbl
  induction tbl with
  | nil =>
    intro L _
    simp [sum_map_zero]
  | cons r rest ih =>
    intro L hnd
    by_cases hA : kInRange st r = true
    · have exp : ∀ ts : Int,
          (((r :: rest).filter (fun x => kInRange st x && decide (x.minute = ts))).map
            (fun x => x.count)).sum
          = (if r.minute = ts then r.count else 0)
            + ((rest.filter (fun x => kInRange st x && decide (x.minute = ts))).map
                (fun x => x.count)).sum := by
        intro ts
        rw [List.filter_cons]
        by_cases hm : r.minute = ts
        · rw [if_pos (by rw [hA, hm]; simp), List.map_cons, List.sum_cons, if_pos hm]
        · rw [if_neg (by rw [hA]; simp [hm]), if_neg hm]
          ring
      calc (L.map (fun ts => (((r :: rest).filter
              (fun x => kInRange st x && decide (x.minute = ts))).map
              (fun x => x.count)).sum)).sum
          = (L.map (fun ts => (if r.minute = ts then r.count else 0)
              + ((rest.filter (fun x => kInRange st x && decide (x.minute = ts))).map
                  (fun x => x.count)).sum)).sum := by
            exact congrArg List.sum (List.map_congr_left (fun ts _ => exp ts))
        _ = (L.map (fun ts => if r.minute = ts then r.count else 0)).sum
              + (L.map (fun ts => ((rest.filter
                  (fun x => kInRange st x && decide (x.minute = ts))).map
                  (fun x => x.count)).sum)).sum := by
            exact sum_map_add L _ _
        _ = (if r.minute ∈ L then r.count else 0)
              + ((rest.filter (fun x => kInRange st x && decide (x.minute ∈ L))).map
                  (fun x => x.count)).sum := by
            rw [sum_indicator r.count r.minute L hnd, ih L hnd]
        _ = (((r :: rest).filter (fun x => kInRange st x && decide (x.minute ∈ L))).map
              (fun x => x.count)).sum := by
            rw [List.filter_cons]
            by_cases hm : r.minute ∈ L
            · have hcond : (kInRange st r && decide (r.minute ∈ L)) = true := by
                rw [hA, decide_eq_true hm]
                rfl
              rw [if_pos hm, if_pos hcond, List.map_cons, List.sum_cons]
            · have hcond : ¬ ((kInRange st r && decide (r.minute ∈ L)) = true) := by
                simp [hA, hm]
              rw [if_neg hm, if_neg hcond]
              ring
    · have hA' : kInRange st r = false := by
        rw [Bool.not_eq_true] at hA; exact hA
      have exp : ∀ ts : Int,
          ((r :: rest).filter (fun x => kInRange st x && decide (x.minute = ts)))
          = (rest.filter (fun x => kInRange st x && decide (x.minute = ts))) := by
        intro ts
        rw [List.filter_cons, if_neg (by rw [hA']; simp)]
      have heq : (L.map (fun ts => (((r :: rest).filter
            (fun x => kInRange st x && decide (x.minute = ts))).map
            (fun x => x.count)).sum)).sum
          = (L.map (fun ts => ((rest.filter
              (fun x => kInRange st x && decide (x.minute = ts))).map
              (fun x => x.count)).sum)).sum := by
        exact congrArg List.sum (List.map_congr_left (fun ts _ => by rw [exp ts]))
      rw [heq, ih L hnd, List.filter_cons, if_neg (by rw [hA']; simp)]

/-- C4 amended: for the 60-second-bucket ranges (`1h` default and `24h`),
`total` equals the sum of the history counts provided the data lies on the
emitted buckets: every row in range must sit on a 60-aligned minute no
later than `nowBucket`, and `now` itself must not be minute-aligned (when
`now` is aligned, the oldest bucket of the range is dropped by the
`max points` cap while its rows still count toward `total`). -/
theorem spec_C4_total_eq_history_sum (env : Env) (ks : List KRow) (mm : List MRow)
    (vc : List VRow) (timeRange : String)
    (h7 : timeRange ≠ "7d") (h30 : timeRange ≠ "30d") (h1y : timeRange ≠ "1y")
    (hnow : 0 ≤ env.nowUnix) (hna : ¬ (60 : Int) ∣ env.nowUnix)
    (hrows : ∀ r ∈ ks, (60 : Int) ∣ r.minute ∧ r.minute ≤ nowBucket env.nowUnix 60) :
    (getStats env ks mm vc timeRange noStatsFail).total
      = (((getStats env ks mm vc timeRange noStatsFail).history.map
          (fun tp => tp.count)).sum) := by
  have hw60 : (rangeCfg env.nowUnix env.yearStart timeRange).width = 60 := by
    rw [rangeCfg]
    by_cases h24 : timeRange = "24h"
    · rw [if_pos h24]
    · rw [if_neg h24, if_neg h7, if_neg h30, if_neg h1y]
  have hstpts : (rangeCfg env.nowUnix env.yearStart timeRange).startTime
      = env.nowUnix - 60 * ((rangeCfg env.nowUnix env.yearStart timeRange).points : Int) := by
    rw [rangeCfg]
    by_cases h24 : timeRange = "24h"
    · rw [if_pos h24]
      norm_num
    · rw [if_neg h24, if_neg h7, if_neg h30, if_neg h1y]
      norm_num
  have hpts : 0 < (rangeCfg env.nowUnix env.yearStart timeRange).points := by
    rw [rangeCfg]
    by_cases h24 : timeRange = "24h"
    · rw [if_pos h24]
      norm_num
    · rw [if_neg h24, if_neg h7, if_neg h30, if_neg h1y]
      norm_num
  have hnbdef : nowBucket env.nowUnix 60 = env.nowUnix / 60 * 60 := by
    rw [nowBucket, Int.tdiv_eq_ediv hnow (by norm_num)]
  have hle : (rangeCfg env.nowUnix env.yearStart timeRange).startTime
      ≤ nowBucket env.nowUnix (rangeCfg env.nowUnix env.yearStart timeRange).width := by
    rw [hw60, hnbdef, hstpts]
    have := hpts
    omega
  have hhist : (getStats env ks mm vc timeRange noStatsFail).history
      = historySeries (nowBucket env.nowUnix (rangeCfg env.nowUnix env.yearStart timeRange).width)
          (rangeCfg env.nowUnix env.yearStart timeRange).startTime
          (rangeCfg env.nowUnix env.yearStart timeRange).width
          (rangeCfg env.nowUnix env.yearStart timeRange).points
          (histMapAt ks (rangeCfg env.nowUnix env.yearStart timeRange).startTime
            (rangeCfg env.nowUnix env.yearStart timeRange).width) := rfl
  have htot : (getStats env ks mm vc timeRange noStatsFail).total
      = totalKeystrokes ks (rangeCfg env.nowUnix env.yearStart timeRange).startTime := rfl
  rw [hhist, htot,
    historySeries_eq ks _ _ _ _ (by rw [hw60]; norm_num) hle, hw60, expectedHistory]
  rw [hw60] at hle
  generalize hST : (rangeCfg env.nowUnix env.yearStart timeRange).startTime = ST at hstpts hle
  generalize hPTS : (rangeCfg env.nowUnix env.yearStart timeRange).points = PTS at hstpts hpts
  generalize hNB : nowBucket env.nowUnix 60 = NB at hnbdef hle hrows
  -- the emitted point count is exactly PTS
  have hN : expectedPoints NB ST 60 PTS = PTS := by
    rw [expectedPoints]
    omega
  rw [hN]
  -- flatten the reversed mapped series into a plain sum over the buckets
  rw [List.map_reverse, List.sum_reverse, List.map_map]
  have hcomp : ((fun tp : TimePoint => tp.count) ∘
      (fun i : Nat => ({ time := NB - (i : Int) * 60,
                         count := histMapAt ks ST 60 (NB - (i : Int) * 60) } : TimePoint)))
      = fun i : Nat => histMapAt ks ST 60 (NB - (i : Int) * 60) := rfl
  rw [hcomp]
  have hm60 : ∀ ts : Int, histMapAt ks ST 60 ts
      = ((ks.filter (fun r => kInRange ST r && decide (r.minute = ts))).map
          (fun r => r.count)).sum := by
    intro ts
    rw [histMapAt, if_pos rfl]
  have hmapmap : ((List.range PTS).map
      (fun i : Nat => histMapAt ks ST 60 (NB - (i : Int) * 60)))
      = (((List.range PTS).map (fun i : Nat => NB - (i : Int) * 60)).map
          (fun ts => ((ks.filter (fun r => kInRange ST r && decide (r.minute = ts))).map
            (fun r => r.count)).sum)) := by
    rw [List.map_map]
    exact List.map_congr_left (fun i _ => hm60 (NB - (i : Int) * 60))
  rw [hmapmap]
  have hnd : ((List.range PTS).map (fun i : Nat => NB - (i : Int) * 60)).Nodup := by
    refine List.Nodup.map ?_ (List.nodup_range PTS)
    intro i j hij
    simp only [] at hij
    omega
  rw [sum_hist_counts ST ks ((List.range PTS).map (fun i : Nat => NB - (i : Int) * 60)) hnd]
  rw [totalKeystrokes]
  have hfeq : ks.filter (fun r => kInRange ST r
        && decide (r.minute ∈ ((List.range PTS).map (fun i : Nat => NB - (i : Int) * 60))))
      = ks.filter (kInRange ST) := by
    apply List.filter_congr
    intro r hr
    by_cases hA : ST ≤ r.minute
    · have hmem : r.minute ∈ (List.range PTS).map (fun i : Nat => NB - (i : Int) * 60) := by
        rw [List.mem_map]
        refine ⟨((NB - r.minute) / 60).toNat, List.mem_range.mpr ?_, ?_⟩
        · have h1 := (hrows r hr).1
          have h2 := (hrows r hr).2
          omega
        · have h1 := (hrows r hr).1
          have h2 := (hrows r hr).2
          omega
      rw [kInRange, decide_eq_true hA, decide_eq_true hmem]
      rfl
    · rw [kInRange, decide_eq_false hA]
      rfl
  rw [hfeq]

/-- A concrete environment for the C4 witness: `now` one second past a
minute boundary. -/
def envC4w : Env :=
  { nowUnix := 86461, yearStart := 0, calStart := 0,
    localDay := fun _ => 0, hourOf := fun _ => 0, dowOf := fun _ => 0 }

/-- Two keystrokes on the minute bucket 86400, inside the 1h range. -/
def ksC4w : List KRow :=
  [{ minute := 86400, key_char := "a", count := 2 }]

/-- Witness for C4 amended at a concrete input. -/
theorem spec_C4_total_eq_history_sum_witness :
    0 ≤ envC4w.nowUnix
    ∧ ¬ (60 : Int) ∣ envC4w.nowUnix
    ∧ (∀ r ∈ ksC4w, (60 : Int) ∣ r.minute ∧ r.minute ≤ nowBucket envC4w.nowUnix 60)
    ∧ (getStats envC4w ksC4w [] [] ("1h") noStatsFail).total
        = (((getStats envC4w ksC4w [] [] ("1h") noStatsFail).history.map
            (fun tp => tp.count)).sum) := by
  refine ⟨by decide, by decide, by decide, ?_⟩
  exact spec_C4_total_eq_history_sum envC4w ksC4w [] [] ("1h")
    (by decide) (by decide) (by decide) (by decide) (by decide) (by decide)

/-- A concrete environment for the C4 counterexample: `now` exactly on a
minute boundary. -/
def envC4 : Env :=
  { nowUnix := 86400, yearStart := 0, calStart := 0,
    localDay := fun _ => 0, hourOf := fun _ => 0, dowOf := fun _ => 0 }

/-- Five keystrokes on the bucket that equals the 1h range's start time. -/
def ksC4 : List KRow :=
  [{ minute := 82800, key_char := "a", count := 5 }]

/-- Counterexample to C4 as stated: at a minute-aligned `now = 86400` the 1h
range starts at 82800, a bucket whose rows count toward `total` but which
the 60-point history walk never reaches, so `total = 5` while the history
counts sum to 0. -/
theorem spec_C4_counterexample :
    (getStats envC4 ksC4 [] [] ("1h") noStatsFail).total = 5
    ∧ (((getStats envC4 ksC4 [] [] ("1h") noStatsFail).history.map
        (fun tp => tp.count)).sum) = 0
    ∧ (getStats envC4 ksC4 [] [] ("1h") noStatsFail).total
        ≠ (((getStats envC4 ksC4 [] [] ("1h") noStatsFail).history.map
            (fun tp => tp.count)).sum) := by
  refine ⟨by decide, by decide, by decide⟩

/-- C10 amended: when every underlying query fails, GetStats returns the
zero-valued Stats — zero totals and rates, empty top_keys and calendar,
busiest hour/day `-1` — except that `history` is not empty: the gap-fill
loop still runs and returns the full series of zero-count points.  The
heatmap reads return the empty (nil) series and GetVideoCallStats returns
the zero structure with empty lists. -/
theorem spec_C10_degraded (env : Env) (ks : List KRow) (mm : List MRow) (vc : List VRow)
    (timeRange : String) :
    (getStats env ks mm vc timeRange allStatsFail).total = 0
    ∧ (getStats env ks mm vc timeRange allStatsFail).kpm.avg = 0
    ∧ (getStats env ks mm vc timeRange allStatsFail).kpm.max = 0
    ∧ (getStats env ks mm vc timeRange allStatsFail).typing.charsPerBackspace = 0
    ∧ (getStats env ks mm vc timeRange allStatsFail).typing.backspaces = 0
    ∧ (getStats env ks mm vc timeRange allStatsFail).topKeys = []
    ∧ (getStats env ks mm vc timeRange allStatsFail).calendar = []
    ∧ (getStats env ks mm vc timeRange allStatsFail).mouse.distance = 0
    ∧ (getStats env ks mm vc timeRange allStatsFail).mouse.clicksLeft = 0
    ∧ (getStats env ks mm vc timeRange allStatsFail).mouse.clicksRight = 0
    ∧ (getStats env ks mm vc timeRange allStatsFail).mouse.scroll = 0
    ∧ (getStats env ks mm vc timeRange allStatsFail).busiestHour = -1
    ∧ (getStats env ks mm vc timeRange allStatsFail).busiestDay = -1
    ∧ (getStats env ks mm vc timeRange allStatsFail).avgCallMinutesPerDay = 0
    ∧ (getStats env ks mm vc timeRange allStatsFail).history
        = historySeries
            (nowBucket env.nowUnix (rangeCfg env.nowUnix env.yearStart timeRange).width)
            (rangeCfg env.nowUnix env.yearStart timeRange).startTime
            (rangeCfg env.nowUnix env.yearStart timeRange).width
            (rangeCfg env.nowUnix env.yearStart timeRange).points (fun _ => 0)
    ∧ (∀ tp ∈ (getStats env ks mm vc timeRange allStatsFail).history, tp.count = 0)
    ∧ getHeatmap ks mm true true = []
    ∧ getHeatmap ks mm true false = []
    ∧ getVideoCallHeatmap vc true = []
    ∧ getVideoCallStats env vc timeRange allCallStatsFail
        = { totalMinutes := 0, totalCalls := 0, cameraMinutes := 0, microphoneMinutes := 0,
            appBreakdown := [], dailyMinutes := [], heatmap := [] } := by
  have havg : (getStats env ks mm vc timeRange allStatsFail).kpm.avg
      = ((0 : Int) : ℚ)
        / max 1 (((env.nowUnix
            - (rangeCfg env.nowUnix env.yearStart timeRange).startTime : Int) : ℚ) / 60) := rfl
  have hmem : ∀ tp ∈ (getStats env ks mm vc timeRange allStatsFail).history, tp.count = 0 := by
    intro tp htp
    have hh : (getStats env ks mm vc timeRange allStatsFail).history
        = historySeries
            (nowBucket env.nowUnix (rangeCfg env.nowUnix env.yearStart timeRange).width)
            (rangeCfg env.nowUnix env.yearStart timeRange).startTime
            (rangeCfg env.nowUnix env.yearStart timeRange).width
            (rangeCfg env.nowUnix env.yearStart timeRange).points (fun _ => 0) := rfl
    rw [hh, historySeries, List.mem_reverse] at htp
    obtain ⟨ts, hts, hback⟩ := List.mem_map.mp htp
    rw [← hback]
  refine ⟨rfl, ?_, rfl, rfl, rfl, rfl, rfl, rfl, rfl, rfl, rfl, rfl, rfl, rfl, rfl,
    hmem, rfl, rfl, rfl, rfl⟩
  rw [havg]
  norm_num

/-- A concrete environment for the C10 counterexample. -/
def envC10 : Env :=
  { nowUnix := 120, yearStart := -31536000, calStart := 0,
    localDay := fun _ => 0, hourOf := fun _ => 0, dowOf := fun _ => 0 }

/-- Counterexample to C10 as stated: even with every query failing, the
history list returned by GetStats is not empty — the gap-fill loop emits the
full zero-count series. -/
theorem spec_C10_counterexample :
    (getStats envC10 [] [] [] ("1h") allStatsFail).history ≠ []
    ∧ (getStats envC10 [] [] [] ("1h") allStatsFail).history.length = 60 := by
  refine ⟨by decide, by decide⟩

/-- Witness for C10 amended at a concrete input. -/
theorem spec_C10_degraded_witness :
    (getStats envC10 [] [] [] ("24h") allStatsFail).total = 0
    ∧ (getStats envC10 [] [] [] ("24h") allStatsFail).busiestHour = -1
    ∧ getHeatmap [] [] true true = [] := by
  refine ⟨(spec_C10_degraded envC10 [] [] [] ("24h")).1, ?_, ?_⟩
  · exact (spec_C10_degraded envC10 [] [] [] ("24h")).2.2.2.2.2.2.2.2.2.2.2.1
  · exact (spec_C10_degraded envC10 [] [] [] ("24h")).2.2.2.2.2.2.2.2.2.2.2.2.2.2.2.2.1

end Busygraph
